import Mathlib

/-!
Shallow embedding of the flatspot change-detection and lifecycle pipeline.

The repository contains two implementations of the pipeline:
* `src/src/process.py` — a two-stage pipeline: per-snapshot canonicalization
  (`extract_property_features` inside `process_json_to_parquet`), then
  `detect_changes` and `prepare_for_database` over the collected dataframes;
* `src/process.py` — a single-pass pipeline (`extract_property_data` and
  `process_all_json_files`).

Values flowing through the pipeline are modelled by a `Json` type; Python
`None` and pandas `NaN`/`NaT` are both modelled as `Json.null` (the code only
ever distinguishes them through `pd.isna`).  Numbers are modelled as `Int`
(the claims under study never depend on fractional values, rounding, or float
formatting; pandas dtype promotion of stored values is likewise abstracted:
`str` of a stored number is rendered as the integer's decimal string).
Timestamps (`crawled_at`) are modelled as `Nat`; `.dt.date` is modelled as
division by 86400.  Python exceptions are modelled with `Except Unit`;
a `try/except` block maps a thrown error to the handler's result.
-/

mutual
inductive Json where
  | null : Json
  | num : Int → Json
  | str : String → Json
  | bool : Bool → Json
  | arr : JsonList → Json
  | obj : JsonFields → Json
deriving DecidableEq, Repr

inductive JsonList where
  | nil : JsonList
  | cons : Json → JsonList → JsonList
deriving DecidableEq, Repr

inductive JsonFields where
  | nil : JsonFields
  | cons : String → Json → JsonFields → JsonFields
deriving DecidableEq, Repr
end

deriving instance DecidableEq for Except

/-- Build a JSON array from a Lean list literal. -/
def jarr : List Json → Json :=
  fun xs => Json.arr (xs.foldr JsonList.cons JsonList.nil)

/-- Build a JSON object from a Lean association-list literal. -/
def jobj : List (String × Json) → Json :=
  fun fs => Json.obj (fs.foldr (fun kv r => JsonFields.cons kv.1 kv.2 r) JsonFields.nil)

/-- View a JSON array body as a Lean list. -/
def JsonList.toList : JsonList → List Json
  | JsonList.nil => []
  | JsonList.cons x xs => x :: xs.toList

/-- Key lookup in a JSON object body (first match wins, as in a Python dict
whose literals never repeat keys). -/
def JsonFields.lookup : JsonFields → String → Option Json
  | JsonFields.nil, _ => none
  | JsonFields.cons k v rest, key => if k = key then some v else rest.lookup key

/-- Emptiness of a JSON array body. -/
def JsonList.isEmpty : JsonList → Bool
  | JsonList.nil => true
  | JsonList.cons _ _ => false

/-- Emptiness of a JSON object body. -/
def JsonFields.isEmpty : JsonFields → Bool
  | JsonFields.nil => true
  | JsonFields.cons _ _ _ => false

/-- Python truthiness: `None`, `0`, the empty string, and empty containers are
falsy; everything else is truthy. -/
def truthy : Json → Bool
  | Json.null => false
  | Json.num n => n ≠ 0
  | Json.str s => s ≠ ""
  | Json.bool b => b
  | Json.arr xs => ¬ xs.isEmpty
  | Json.obj fs => ¬ fs.isEmpty

/-- Python `d.get(k)`: on a dict, the stored value or `None` when the key is
missing; on anything else an `AttributeError` is raised. -/
def jget (j : Json) (k : String) : Except Unit Json :=
  match j with
  | Json.obj fs => Except.ok ((fs.lookup k).getD Json.null)
  | _ => Except.error ()

/-- Python `d.get(k, dflt)`: like `jget` but with an explicit default for a
missing key. -/
def jgetD (j : Json) (k : String) (dflt : Json) : Except Unit Json :=
  match j with
  | Json.obj fs => Except.ok ((fs.lookup k).getD dflt)
  | _ => Except.error ()

/-- Parse a digit run, accumulating its value; a non-digit raises. -/
def parseNatDigitsAux : List Char → Nat → Option Nat
  | [], acc => some acc
  | c :: cs, acc =>
    if c.isDigit then parseNatDigitsAux cs (acc * 10 + (c.toNat - 48)) else none

/-- Parse a non-empty digit run. -/
def parseNatDigits : List Char → Option Nat
  | [] => none
  | c :: cs => parseNatDigitsAux (c :: cs) 0

/-- Integer-literal parse of a string (the fragment of Python `float(str)`
the model covers). -/
def parseIntStr (s : String) : Option Int :=
  match s.data with
  | [] => none
  | c :: cs =>
    if c = Char.ofNat 45 then (parseNatDigits cs).map (fun n => -(n : Int))
    else (parseNatDigits (c :: cs)).map (fun n => (n : Int))

/-- Python `float(v)`: numbers pass through, booleans become 0/1, numeric
strings parse (the model parses integer literals), anything else raises. -/
def pyFloat : Json → Except Unit Int
  | Json.num n => Except.ok n
  | Json.bool b => Except.ok (if b then 1 else 0)
  | Json.str s => match parseIntStr s with
    | some n => Except.ok n
    | none => Except.error ()
  | _ => Except.error ()

/-- Python `str(v)` as used on scalar cell values.  Container rendering is
abstracted (the monitored comparisons never involve container reprs in the
claims under study). -/
def pyStr : Json → String
  | Json.null => "None"
  | Json.num n => toString n
  | Json.str s => s
  | Json.bool b => if b then "True" else "False"
  | Json.arr _ => "[...]"
  | Json.obj _ => "[dict]"

/-- The serialization used by both change detectors:
`'' if pd.isna(v) else str(v)`. -/
def pdStr (v : Json) : String :=
  if v = Json.null then "" else pyStr v

/-- Rendering of one value inside `json.dumps` (string escaping is abstracted;
the amenity names under study contain no quotes or backslashes). -/
def dumpVal : Json → String
  | Json.null => "null"
  | Json.num n => toString n
  | Json.str s => "\"" ++ s ++ "\""
  | Json.bool b => if b then "true" else "false"
  | Json.arr _ => "[...]"
  | Json.obj _ => "[dict]"

/-- Model of `json.dumps` on a list of scalar values. -/
def jsonDumps (xs : List Json) : String :=
  "[" ++ String.intercalate ", " (xs.map dumpVal) ++ "]"

/-- A canonical record: one row of the per-snapshot dataframe.  `id` and
`crawled_at` are kept as structured fields; the remaining columns live in
`attrs` (an association list in column order).  A pandas `NaN` id is
`Json.null`. -/
structure Row where
  id : Json
  crawledAt : Nat
  attrs : List (String × Json)
deriving DecidableEq, Repr

/-- Column access `row.get(field)`: a missing column reads as null. -/
def Row.get (r : Row) (f : String) : Json :=
  (r.attrs.lookup f).getD Json.null

/-- Column access for the single-pass diff loop, which also ranges over the
`id` column. -/
def colVal (r : Row) (c : String) : Json :=
  if c = "id" then r.id else r.get c

/-- One raw snapshot file: the parsed capture timestamp and the raw
`properties` array. -/
structure RawSnap where
  crawledAt : Nat
  properties : List Json
deriving Repr

/-- Evaluate the entries of a Python dict literal in order; the first raised
error aborts the whole literal. -/
def seqFields : List (String × Except Unit Json) → Except Unit (List (String × Json))
  | [] => Except.ok []
  | (k, e) :: rest => do
    let v ← e
    let r ← seqFields rest
    Except.ok ((k, v) :: r)

/-- The two-level numeric extraction
`float(prop.get(k1, dict()).get(k2)) if prop.get(k1, dict()).get(k2) else None`. -/
def numField2 (prop : Json) (k1 k2 : String) : Except Unit Json := do
  let a ← jgetD prop k1 (jobj [])
  let v ← jget a k2
  if truthy v then
    (pyFloat v).map Json.num
  else
    Except.ok Json.null

/-- The three-level numeric extraction used for geoposition coordinates. -/
def numField3 (prop : Json) (k1 k2 k3 : String) : Except Unit Json := do
  let a ← jgetD prop k1 (jobj [])
  let b ← jgetD a k2 (jobj [])
  let v ← jget b k3
  if truthy v then
    (pyFloat v).map Json.num
  else
    Except.ok Json.null

/-- Plain two-level lookup `prop.get(k1, dict()).get(k2)` with no coercion. -/
def passField2 (prop : Json) (k1 k2 : String) : Except Unit Json := do
  let a ← jgetD prop k1 (jobj [])
  jget a k2

/-- Three-level lookup `prop.get(k1, dict()).get(k2, dict()).get(k3)`. -/
def passField3 (prop : Json) (k1 k2 k3 : String) : Except Unit Json := do
  let a ← jgetD prop k1 (jobj [])
  let b ← jgetD a k2 (jobj [])
  jget b k3

/-- Four-level lookup used for the publisher cellphone number. -/
def passField4 (prop : Json) (k1 k2 k3 k4 : String) : Except Unit Json := do
  let a ← jgetD prop k1 (jobj [])
  let b ← jgetD a k2 (jobj [])
  let c ← jgetD b k3 (jobj [])
  jget c k4

/-- The amenity encoding
`json.dumps([item.get('name') for item in prop.get('privativeItems', []) if item.get('name')])`.
Iterating a non-list raises. -/
def privItems (prop : Json) : Except Unit Json := do
  let pi_ ← jgetD prop "privativeItems" (jarr [])
  match pi_ with
  | Json.arr items => do
    let names ← items.toList.mapM (fun it => jget it "name")
    Except.ok (Json.str (jsonDumps (names.filter (fun n => truthy n))))
  | _ => Except.error ()

/-- Model of `pd.to_datetime(v, errors=coerce)`: never raises; the timestamp
representation itself is abstracted (the value is never diffed). -/
def toDatetimeCoerce (v : Json) : Json := v

/-- The dict literal of `extract_property_features` (src/src/process.py),
entry by entry in source order. -/
def featureSpecs (prop : Json) : List (String × Except Unit Json) :=
  [ ("id", jget prop "id")
  , ("title", jget prop "title")
  , ("reference", jget prop "reference")
  , ("description", jget prop "description")
  , ("category", jget prop "category")
  , ("total_area", numField2 prop "area" "total")
  , ("useful_area", numField2 prop "area" "useful")
  , ("price", passField2 prop "prices" "rawPrice")
  , ("bedrooms", passField2 prop "properties" "bedrooms")
  , ("bathrooms", passField2 prop "bathrooms" "count")
  , ("suites", passField2 prop "suites" "count")
  , ("garages", passField2 prop "garages" "count")
  , ("street_name", passField3 prop "location" "street" "name")
  , ("address_number", passField3 prop "location" "street" "addressNumber")
  , ("address_comp", passField3 prop "location" "street" "addressComp")
  , ("neighborhood", passField3 prop "location" "neighborhood" "name")
  , ("city", passField3 prop "location" "city" "name")
  , ("state", passField3 prop "location" "state" "name")
  , ("latitude", numField3 prop "location" "geoposition" "lat")
  , ("longitude", numField3 prop "location" "geoposition" "lon")
  , ("publisher_name", passField2 prop "publisher" "name")
  , ("publisher_phone", passField4 prop "publisher" "phones" "cellphone" "number")
  , ("privative_items", privItems prop)
  , ("estado", jget prop "estado")
  , ("cidade", jget prop "cidade")
  , ("bairro", jget prop "bairro")
  , ("updated_at", (jget prop "updatedAt").map toDatetimeCoerce)
  ]

/-- Canonicalizer of the two-stage pipeline: `extract_property_features`. -/
def extract_property_features (prop : Json) : Except Unit (List (String × Json)) :=
  seqFields (featureSpecs prop)

/-- The dict literal of `extract_property_data` (src/process.py), entry by
entry in source order.  `crawled_at` is carried on the `Row` structure. -/
def dataSpecs (prop : Json) : List (String × Except Unit Json) :=
  [ ("id", jget prop "id")
  , ("title", jget prop "title")
  , ("reference", jget prop "reference")
  , ("active", jget prop "active")
  , ("description", jget prop "description")
  , ("total_area", numField2 prop "area" "total")
  , ("useful_area", numField2 prop "area" "useful")
  , ("publisher_name", passField2 prop "publisher" "name")
  , ("publisher_phone", passField4 prop "publisher" "phones" "cellphone" "number")
  , ("publisher_landline", passField4 prop "publisher" "phones" "landline" "number")
  , ("publisher_commercial", passField4 prop "publisher" "phones" "commercial" "number")
  , ("category", jget prop "category")
  , ("price", passField2 prop "prices" "rawPrice")
  , ("commercial_rooms", passField2 prop "commercialRooms" "count")
  , ("bathrooms", passField2 prop "bathrooms" "count")
  , ("suites", passField2 prop "suites" "count")
  , ("garages", passField2 prop "garages" "count")
  , ("street_name", passField3 prop "location" "street" "name")
  , ("address_number", passField3 prop "location" "street" "addressNumber")
  , ("address_comp", passField2 prop "location" "addressComp")
  , ("neighborhood_name", passField3 prop "location" "neighborhood" "name")
  , ("city_name", passField3 prop "location" "city" "name")
  , ("state_name", passField3 prop "location" "state" "name")
  , ("latitude", numField3 prop "location" "geoposition" "lat")
  , ("longitude", numField3 prop "location" "geoposition" "lon")
  , ("privative_items", privItems prop)
  , ("updated_at", (jget prop "updatedAt").map toDatetimeCoerce)
  ]

/-- Build a `Row` from an extracted attribute list and the snapshot capture
time (the `id` column is mirrored into the structured field). -/
def mkRow (attrs : List (String × Json)) (t : Nat) : Row :=
  { id := (attrs.lookup "id").getD Json.null, crawledAt := t, attrs := attrs }

/-- Model of `drop_duplicates(subset=[id], keep=last)`: keep, for each id
value (pandas treats NaN ids as equal to each other here), the last row
bearing it, in the order those kept rows appear. -/
def dedupLast : List Row → List Row
  | [] => []
  | r :: rest =>
    if rest.any (fun x => x.id = r.id) then dedupLast rest else r :: dedupLast rest

/-- Model of a full-tuple `drop_duplicates()` (pandas keeps the first
occurrence of each duplicated tuple); `seen` accumulates values already
kept. -/
def dedupKeepFirstAux {α : Type} [DecidableEq α] (seen : List α) : List α → List α
  | [] => []
  | a :: rest =>
    if a ∈ seen then dedupKeepFirstAux seen rest
    else a :: dedupKeepFirstAux (a :: seen) rest

/-- Keep the first occurrence of every value, in first-occurrence order. -/
def dedupKeepFirst {α : Type} [DecidableEq α] (l : List α) : List α :=
  dedupKeepFirstAux [] l

/-- Ordering of rows by observation time, used to model
`sort_values` on `crawled_at`.  The model's sort is stable; pandas leaves the
relative order of equal keys unspecified, so statements that depend on tie
order carry distinctness hypotheses. -/
def rowLe (a b : Row) : Prop := a.crawledAt ≤ b.crawledAt

instance : DecidableRel rowLe := fun a b => Nat.decLe a.crawledAt b.crawledAt

/-- Model of `full_df.sort_values(crawled_at)`. -/
def sortByCrawled (l : List Row) : List Row := List.insertionSort rowLe l

/-- Constructor rank of an id value, first component of its sort key. -/
def jsonRank : Json → Nat
  | Json.null => 0
  | Json.num _ => 1
  | Json.str _ => 2
  | Json.bool _ => 3
  | Json.arr _ => 4
  | Json.obj _ => 5

/-- Numeric component of an id sort key. -/
def jsonNumVal : Json → Int
  | Json.num n => n
  | Json.bool b => if b then 1 else 0
  | _ => 0

/-- Textual component of an id sort key. -/
def jsonStrVal : Json → String
  | Json.str s => s
  | _ => ""

/-- Executable comparison of id values, used to model the sorted group keys
of `groupby(id)`: scalar ids (the only kind the data contains) are ordered
by kind, then value; container ids are collapsed (the model leaves them
unordered). -/
def idLeB (a b : Json) : Bool :=
  decide (jsonRank a < jsonRank b) ||
    (decide (jsonRank a = jsonRank b) &&
      (decide (jsonNumVal a < jsonNumVal b) ||
        (decide (jsonNumVal a = jsonNumVal b) && decide (jsonStrVal a ≤ jsonStrVal b))))

/-- Whether an id value is a scalar (ids in the data are numbers; the sort
key is injective on scalars). -/
def scalarId : Json → Bool
  | Json.arr _ => false
  | Json.obj _ => false
  | _ => true

/-- The id ordering as a relation. -/
def idLe (a b : Json) : Prop := idLeB a b = true

instance : DecidableRel idLe := fun a b => instDecidableEqBool (idLeB a b) true

/-- Proof-side lexicographic sort key realizing `idLeB`. -/
def idKey (j : Json) : Lex (Nat × Lex (Int × String)) :=
  toLex (jsonRank j, toLex (jsonNumVal j, jsonStrVal j))

/-- Two-stage pipeline, per-snapshot stage (`process_json_to_parquet`):
canonicalize every raw record (any raised error is caught around the whole
file, which is then skipped), reject empty snapshots, and deduplicate by id
keeping the last occurrence.  Parquet layout and logging are plumbing and not
modelled. -/
def process_json_to_parquet (s : RawSnap) : Option (List Row) :=
  match s.properties.mapM extract_property_features with
  | Except.error _ => none
  | Except.ok attrsList =>
    let rows := attrsList.map (fun a => mkRow a s.crawledAt)
    if rows.isEmpty then none else some (dedupLast rows)

/-- Two-stage pipeline driver (`process_all_raw_data`): snapshots whose
processing failed contribute nothing; the rest are collected in order. -/
def process_all_raw_data (snaps : List RawSnap) : List (List Row) :=
  snaps.filterMap process_json_to_parquet

/-- The fixed monitored-field enumeration of `detect_changes`. -/
def monitor_fields : List String :=
  [ "price", "title", "description", "total_area", "useful_area"
  , "bedrooms", "bathrooms", "suites", "garages"
  , "street_name", "address_number", "neighborhood"
  , "publisher_name", "publisher_phone" ]

/-- A change event of `detect_changes`: old and new values are stored as the
compared serializations; `change_date` is the later record's `crawled_at`. -/
structure ChangeEvent where
  id : Json
  field : String
  old_value : String
  new_value : String
  change_date : Nat
deriving DecidableEq, Repr

/-- The history of one id inside `detect_changes`: the rows bearing that id,
in observation-time order (the group contents after
`sort_values([id, crawled_at])` and `groupby(id)`). -/
def histOf (rows : List Row) (pid : Json) : List Row :=
  List.insertionSort rowLe (rows.filter (fun r => r.id = pid))

/-- The sorted distinct non-null ids — the group keys of `groupby(id)`
(pandas drops NaN groups). -/
def idsOf (rows : List Row) : List Json :=
  List.insertionSort idLe (dedupKeepFirst ((rows.map Row.id).filter (fun v => v ≠ Json.null)))

/-- Events generated for the adjacent pairs of one id's history: for each
monitored field, serialize both sides and emit iff the serializations differ
and neither is empty. -/
def pairEvents (pid : Json) (hist : List Row) : List ChangeEvent :=
  (hist.zip hist.tail).flatMap (fun pc =>
    monitor_fields.filterMap (fun f =>
      let ps := pdStr (pc.1.get f)
      let cs := pdStr (pc.2.get f)
      if ps ≠ cs ∧ ps ≠ "" ∧ cs ≠ "" then
        some { id := pid, field := f, old_value := ps, new_value := cs
             , change_date := pc.2.crawledAt }
      else none))

/-- Two-stage change detector (`detect_changes`): with fewer than two
dataframes the result is empty; otherwise concatenate, group by id in sorted
id order, emit the per-pair events, and drop exact duplicate event tuples. -/
def detect_changes (dfs : List (List Row)) : List ChangeEvent :=
  if dfs.length < 2 then []
  else
    let rows := dfs.flatten
    dedupKeepFirst ((idsOf rows).flatMap (fun pid => pairEvents pid (histOf rows pid)))

/-- Calendar date of a timestamp (`.dt.date`). -/
def dateOf (t : Nat) : Nat := t / 86400

/-- The non-null ids observed on one calendar date (the day sets of
`prepare_for_database`; NaN ids sit in the pandas sets but never succeed a
membership test, so the model omits them). -/
def idsOnDate (rows : List Row) (d : Nat) : List Json :=
  dedupKeepFirst (((rows.filter (fun r => dateOf r.crawledAt = d)).map Row.id).filter
    (fun v => v ≠ Json.null))

/-- The sorted distinct calendar dates with any observation
(`sorted(daily_ids.keys())`). -/
def datesOf (rows : List Row) : List Nat :=
  List.insertionSort (fun a b => a ≤ b) (dedupKeepFirst (rows.map (fun r => dateOf r.crawledAt)))

/-- Number of distinct calendar dates on which an id was observed. -/
def daysPresent (rows : List Row) (pid : Json) : Nat :=
  ((datesOf rows).filter (fun d => (idsOnDate rows d).any (fun x => x = pid))).length

/-- The liveness rule of `prepare_for_database`: with at least two observed
dates, an id present on at least two dates and absent from the most recent
date is inactive; every other id (and every id when only one date exists)
stays active. -/
def activeFlag (rows : List Row) (pid : Json) : Bool :=
  let dates := datesOf rows
  if dates.length < 2 then true
  else if 2 ≤ daysPresent rows pid ∧
      (idsOnDate rows (dates.getLastD 0)).any (fun x => x = pid) = false then false
  else true

/-- First-seen timestamp: minimum `crawled_at` among the rows bearing the id
(`groupby(id).min()`, which drops the NaN id group; the left merge then
leaves the null-id row with a NaT, modelled as `none`). -/
def firstSeenOf (rows : List Row) (pid : Json) : Option Nat :=
  if pid = Json.null then none
  else ((rows.filter (fun r => r.id = pid)).map Row.crawledAt).min?

/-- One row of the final current-state table. -/
structure StateRow where
  id : Json
  firstSeen : Option Nat
  attrs : List (String × Json)
  active : Bool
deriving DecidableEq, Repr

/-- Two-stage state materializer (`prepare_for_database`): sort all rows by
observation time, keep the last row per id, overwrite its timestamp with the
id's first-seen time, and attach the liveness flag. -/
def prepare_for_database (dfs : List (List Row)) : List StateRow :=
  if dfs.isEmpty then []
  else
    let rows := sortByCrawled dfs.flatten
    (dedupLast rows).map (fun r =>
      { id := r.id, firstSeen := firstSeenOf rows r.id, attrs := r.attrs
      , active := activeFlag rows r.id })

/-- A change record of the single-pass pipeline: raw old/new values plus both
observation times. -/
structure PChange where
  id : Json
  field : String
  old_value : Json
  new_value : Json
  old_date : Nat
  new_date : Nat
deriving DecidableEq, Repr

/-- The column list of the single-pass dataframe, in `extract_property_data`
order; the diff loop ranges over all of them except the two timestamps. -/
def pyCols : List String :=
  [ "id", "title", "reference", "active", "description", "total_area", "useful_area"
  , "publisher_name", "publisher_phone", "publisher_landline", "publisher_commercial"
  , "category", "price", "commercial_rooms", "bathrooms", "suites", "garages"
  , "street_name", "address_number", "address_comp", "neighborhood_name"
  , "city_name", "state_name", "latitude", "longitude", "privative_items"
  , "updated_at", "crawled_at" ]

/-- Association-list lookup for the Python dicts of the single-pass loop. -/
def alookup {β : Type} : List (Json × β) → Json → Option β
  | [], _ => none
  | kv :: rest, k => if kv.1 = k then some kv.2 else alookup rest k

/-- Python dict assignment: updating an existing key keeps its position,
a new key is appended. -/
def dictUpdate {β : Type} (l : List (Json × β)) (k : Json) (v : β) : List (Json × β) :=
  if l.any (fun kv => kv.1 = k) then l.map (fun kv => if kv.1 = k then (k, v) else kv)
  else l ++ [(k, v)]

/-- The single-pass diff of one id between its stored previous row and the
current row: every non-timestamp column whose serializations differ yields a
change record — with no non-empty guard. -/
def diffCols (old curr : Row) : List PChange :=
  pyCols.filterMap (fun c =>
    if c = "crawled_at" ∨ c = "updated_at" then none
    else
      let os := pdStr (colVal old c)
      let ns := pdStr (colVal curr c)
      if os ≠ ns then
        some { id := curr.id, field := c, old_value := colVal old c
             , new_value := colVal curr c, old_date := old.crawledAt
             , new_date := curr.crawledAt }
      else none)

/-- Loop state of `process_all_json_files`: the last row seen per id, the
first observation time per id, and the accumulated changes. -/
structure PState where
  prev : List (Json × Row)
  firstSeen : List (Json × Nat)
  changes : List PChange
deriving Repr

/-- Processing of one (deduplicated) row in the single-pass loop: null ids
are skipped; otherwise record first-seen on first sight, diff against the
stored previous row if any, and store the row as the id's latest. -/
def stepRow (st : PState) (r : Row) : PState :=
  if r.id = Json.null then st
  else
    let fs := if (alookup st.firstSeen r.id).isSome then st.firstSeen
              else st.firstSeen ++ [(r.id, r.crawledAt)]
    let chg := match alookup st.prev r.id with
      | some old => st.changes ++ diffCols old r
      | none => st.changes
    { prev := dictUpdate st.prev r.id r, firstSeen := fs, changes := chg }

/-- Processing of one file in the single-pass loop: a failed file (caught
exception) is skipped, an empty dataframe is skipped, otherwise the
deduplicated rows are folded in order. -/
def stepFile (st : PState) (df : Option (List Row)) : PState :=
  match df with
  | none => st
  | some rows => if rows.isEmpty then st else (dedupLast rows).foldl stepRow st

/-- Core of `process_all_json_files` over the per-file extraction results
(`none` marks a file whose load or extraction raised): fewer than two files
take the degenerate paths; otherwise fold the loop and rebuild the final
rows with each id's first-seen time in place of `crawled_at`. -/
def process_datafiles (dfs : List (Option (List Row))) : List Row × List PChange :=
  match dfs with
  | [] => ([], [])
  | [d] =>
    match d with
    | none => ([], [])
    | some rows =>
      if rows.isEmpty then ([], [])
      else ((dedupLast rows).filter (fun r => r.id ≠ Json.null), [])
  | _ =>
    let fin := dfs.foldl stepFile { prev := [], firstSeen := [], changes := [] }
    ( fin.prev.map (fun kv =>
        { kv.2 with crawledAt := (alookup fin.firstSeen kv.1).getD kv.2.crawledAt })
    , fin.changes )

/-- Canonicalizer of the single-pass pipeline (`extract_property_data`):
all records of the file are extracted; any raised error aborts the file. -/
def extract_property_data (s : RawSnap) : Except Unit (List Row) :=
  s.properties.mapM (fun p => (seqFields (dataSpecs p)).map (fun a => mkRow a s.crawledAt))

/-- Single-pass pipeline (`process_all_json_files`) over the files in the
supplied (filename-sorted) order — no re-sort by observation time happens. -/
def process_all_json_files (files : List RawSnap) : List Row × List PChange :=
  process_datafiles (files.map (fun s => (extract_property_data s).toOption))

/-- Chronological supply: within each snapshot all rows share one capture
time, and every row of a later snapshot is at least as late as every row of
an earlier one. -/
def snapsChronoB : List (List Row) → Bool
  | [] => true
  | d :: rest =>
    d.all (fun r1 => d.all (fun r2 => r1.crawledAt = r2.crawledAt)) &&
    d.all (fun r1 => rest.flatten.all (fun r2 => r1.crawledAt ≤ r2.crawledAt)) &&
    snapsChronoB rest

/-- Specification of the single-pass first-seen value: the capture time of
the first supplied usable snapshot containing the (non-null) id. -/
def firstSeenSpec : List (Option (List Row)) → Json → Option Nat
  | [], _ => none
  | none :: rest, pid => firstSeenSpec rest pid
  | some rows :: rest, pid =>
    if rows.isEmpty then firstSeenSpec rest pid
    else match (dedupLast rows).find? (fun r => r.id = pid) with
      | some r => some r.crawledAt
      | none => firstSeenSpec rest pid

/-- Spec-side day-presence: the id was observed on calendar date `d`. -/
def presentOn (rows : List Row) (pid : Json) (d : Nat) : Prop :=
  ∃ r ∈ rows, r.id = pid ∧ dateOf r.crawledAt = d

instance (rows : List Row) (pid : Json) (d : Nat) : Decidable (presentOn rows pid d) :=
  decidable_of_iff (∃ r ∈ rows, r.id = pid ∧ dateOf r.crawledAt = d) Iff.rfl

theorem mem_dedupKeepFirstAux {α : Type} [DecidableEq α] (l : List α) :
    ∀ (seen : List α) (a : α), a ∈ dedupKeepFirstAux seen l ↔ a ∈ l ∧ a ∉ seen := by
  induction l with
  | nil => intro seen a; simp [dedupKeepFirstAux]
  | cons b rest ih =>
    intro seen a
    rw [dedupKeepFirstAux]
    by_cases hb : b ∈ seen
    · rw [if_pos hb, ih]
      constructor
      · rintro ⟨hm, hs⟩
        exact ⟨List.mem_cons_of_mem _ hm, hs⟩
      · rintro ⟨hm, hs⟩
        rcases List.mem_cons.1 hm with rfl | hm
        · exact absurd hb hs
        · exact ⟨hm, hs⟩
    · rw [if_neg hb]
      by_cases hab : a = b
      · subst hab
        simp [hb]
      · rw [List.mem_cons, ih]
        constructor
        · rintro (rfl | ⟨hm, hs⟩)
          · exact absurd rfl hab
          · exact ⟨List.mem_cons_of_mem _ hm,
              fun hc => hs (List.mem_cons_of_mem _ hc)⟩
        · rintro ⟨hm, hs⟩
          rcases List.mem_cons.1 hm with rfl | hm
          · exact absurd rfl hab
          · exact Or.inr ⟨hm, fun hc => by
              rcases List.mem_cons.1 hc with h | h
              · exact hab h
              · exact hs h⟩

theorem mem_dedupKeepFirst {α : Type} [DecidableEq α] (l : List α) (a : α) :
    a ∈ dedupKeepFirst l ↔ a ∈ l := by
  rw [dedupKeepFirst, mem_dedupKeepFirstAux]
  simp

theorem nodup_dedupKeepFirstAux {α : Type} [DecidableEq α] (l : List α) :
    ∀ seen : List α, (dedupKeepFirstAux seen l).Nodup := by
  induction l with
  | nil => intro seen; simp [dedupKeepFirstAux]
  | cons b rest ih =>
    intro seen
    rw [dedupKeepFirstAux]
    by_cases hb : b ∈ seen
    · rw [if_pos hb]; exact ih seen
    · rw [if_neg hb, List.nodup_cons]
      refine ⟨fun hc => ?_, ih (b :: seen)⟩
      exact ((mem_dedupKeepFirstAux rest (b :: seen) b).1 hc).2 (List.mem_cons_self _ _)

theorem nodup_dedupKeepFirst {α : Type} [DecidableEq α] (l : List α) :
    (dedupKeepFirst l).Nodup :=
  nodup_dedupKeepFirstAux l []

theorem dedupLast_filter_id (l : List Row) (pid : Json) :
    (dedupLast l).filter (fun r => r.id = pid) =
      ((l.filter (fun r => r.id = pid)).getLast?).toList := by
  induction l with
  | nil => simp [dedupLast]
  | cons r rest ih =>
    by_cases hdup : rest.any (fun x => x.id = r.id)
    · rw [dedupLast, if_pos hdup]
      by_cases hid : r.id = pid
      · have hne : rest.filter (fun x => x.id = pid) ≠ [] := by
          rw [List.any_eq_true] at hdup
          obtain ⟨x, hx, hxid⟩ := hdup
          simp only [decide_eq_true_eq] at hxid
          intro hcon
          have : x ∈ rest.filter (fun x => x.id = pid) := by
            simp [List.mem_filter, hx, hxid, hid]
          simp [hcon] at this
        obtain ⟨y, ys, hys⟩ := List.exists_cons_of_ne_nil hne
        rw [ih, List.filter_cons_of_pos (by simp [hid]), hys, List.getLast?_cons_cons]
      · rw [ih, List.filter_cons_of_neg (by simp [hid])]
    · rw [dedupLast, if_neg hdup]
      by_cases hid : r.id = pid
      · have hnil : rest.filter (fun x => x.id = pid) = [] := by
          rw [List.filter_eq_nil_iff]
          intro x hx
          simp only [decide_eq_true_eq]
          intro hxid
          exact hdup (List.any_eq_true.2 ⟨x, hx, by simp [hxid, hid]⟩)
        rw [List.filter_cons_of_pos (by simp [hid]),
          List.filter_cons_of_pos (by simp [hid]), ih, hnil]
        simp
      · rw [List.filter_cons_of_neg (by simp [hid]),
          List.filter_cons_of_neg (by simp [hid]), ih]

theorem mem_dedupLast {l : List Row} {r : Row} (h : r ∈ dedupLast l) : r ∈ l := by
  induction l with
  | nil => simp [dedupLast] at h
  | cons x rest ih =>
    rw [dedupLast] at h
    by_cases hdup : rest.any (fun y => y.id = x.id)
    · rw [if_pos hdup] at h
      exact List.mem_cons_of_mem _ (ih h)
    · rw [if_neg hdup] at h
      rcases List.mem_cons.1 h with rfl | hm
      · exact List.mem_cons_self _ _
      · exact List.mem_cons_of_mem _ (ih hm)

theorem dedupLast_id_occurs {l : List Row} {pid : Json} :
    (∃ r ∈ dedupLast l, r.id = pid) ↔ ∃ r ∈ l, r.id = pid := by
  constructor
  · rintro ⟨r, hr, rfl⟩
    exact ⟨r, mem_dedupLast hr, rfl⟩
  · rintro ⟨r, hr, rfl⟩
    have hne : (l.filter (fun x => x.id = r.id)) ≠ [] := by
      intro hcon
      have : r ∈ l.filter (fun x => x.id = r.id) := by simp [List.mem_filter, hr]
      simp [hcon] at this
    have := dedupLast_filter_id l r.id
    rcases hx : (l.filter (fun x => x.id = r.id)).getLast? with _ | x
    · exact absurd (List.getLast?_eq_none_iff.1 hx) hne
    · rw [hx] at this
      have hxmem : x ∈ (dedupLast l).filter (fun y => y.id = r.id) := by
        rw [this]; simp [Option.toList]
      rw [List.mem_filter] at hxmem
      exact ⟨x, hxmem.1, by simpa using hxmem.2⟩

theorem alookup_append {β : Type} (l1 l2 : List (Json × β)) (k : Json) :
    alookup (l1 ++ l2) k = (alookup l1 k).orElse (fun _ => alookup l2 k) := by
  induction l1 with
  | nil => simp [alookup]
  | cons kv rest ih =>
    by_cases h : kv.1 = k
    · simp [alookup, h]
    · simp [alookup, h, ih]

theorem perm_pairwise_strict_eq {α : Type} (s : α → α → Prop)
    (hasym : ∀ a b, s a b → s b a → False) :
    ∀ l1 l2 : List α, List.Perm l1 l2 → l1.Pairwise s → l2.Pairwise s → l1 = l2 := by
  intro l1
  induction l1 with
  | nil => intro l2 hp _ _; exact hp.nil_eq
  | cons a t1 ih =>
    intro l2 hp h1 h2
    have ha2 : a ∈ l2 := hp.mem_iff.1 (List.mem_cons_self _ _)
    cases l2 with
    | nil => simp at ha2
    | cons b t2 =>
      have hab : a = b := by
        by_contra hne
        have hat2 : a ∈ t2 := by
          rcases List.mem_cons.1 ha2 with h | h
          · exact absurd h hne
          · exact h
        have hbt1 : b ∈ a :: t1 := hp.symm.mem_iff.1 (List.mem_cons_self _ _)
        have hbt1' : b ∈ t1 := by
          rcases List.mem_cons.1 hbt1 with h | h
          · exact absurd h.symm hne
          · exact h
        have hsab : s a b := (List.pairwise_cons.1 h1).1 b hbt1'
        have hsba : s b a := (List.pairwise_cons.1 h2).1 a hat2
        exact hasym a b hsab hsba
      subst hab
      have hpt : List.Perm t1 t2 := hp.cons_inv
      rw [ih t2 hpt (List.pairwise_cons.1 h1).2 (List.pairwise_cons.1 h2).2]

theorem sorted_strict_of_nodup_keys {α κ : Type} [LinearOrder κ] (key : α → κ)
    (r : α → α → Prop) (hr : ∀ a b, r a b ↔ key a ≤ key b) {l : List α}
    (hs : l.Pairwise r) (hnd : (l.map key).Nodup) :
    l.Pairwise (fun a b => key a < key b) := by
  have hne : l.Pairwise (fun a b => key a ≠ key b) := List.pairwise_map.1 hnd
  exact (hs.and hne).imp (fun h => lt_of_le_of_ne ((hr _ _).1 h.1) h.2)

theorem insertionSort_key_eq {α κ : Type} [LinearOrder κ] (key : α → κ)
    (r : α → α → Prop) [DecidableRel r] (hr : ∀ a b, r a b ↔ key a ≤ key b)
    {l1 l2 : List α} (hp : List.Perm l1 l2) (hnd : (l1.map key).Nodup) :
    List.insertionSort r l1 = List.insertionSort r l2 := by
  haveI htot : IsTotal α r := ⟨fun a b => by rw [hr, hr]; exact le_total _ _⟩
  haveI htrans : IsTrans α r :=
    ⟨fun a b c hab hbc => (hr a c).2 (le_trans ((hr a b).1 hab) ((hr b c).1 hbc))⟩
  have hperm : List.Perm (List.insertionSort r l1) (List.insertionSort r l2) :=
    (List.perm_insertionSort r l1).trans (hp.trans (List.perm_insertionSort r l2).symm)
  have hnd1 : ((List.insertionSort r l1).map key).Nodup :=
    (((List.perm_insertionSort r l1).map key).nodup_iff).2 hnd
  have hnd2 : ((List.insertionSort r l2).map key).Nodup :=
    (((List.perm_insertionSort r l2).map key).nodup_iff).2
      (((hp.map key).nodup_iff).1 hnd)
  exact perm_pairwise_strict_eq (fun a b => key a < key b)
    (fun a b h1 h2 => absurd h1 (not_lt.2 h2.le)) _ _ hperm
    (sorted_strict_of_nodup_keys key r hr (List.sorted_insertionSort r l1) hnd1)
    (sorted_strict_of_nodup_keys key r hr (List.sorted_insertionSort r l2) hnd2)

theorem sortByCrawled_perm_eq {l1 l2 : List Row} (hp : List.Perm l1 l2)
    (hnd : (l1.map Row.crawledAt).Nodup) : sortByCrawled l1 = sortByCrawled l2 :=
  insertionSort_key_eq Row.crawledAt rowLe (fun _ _ => Iff.rfl) hp hnd

theorem idLe_iff_key (a b : Json) : idLe a b ↔ idKey a ≤ idKey b := by
  rw [idLe, idLeB, idKey, idKey, Prod.Lex.le_iff, Prod.Lex.le_iff]
  simp [Bool.or_eq_true, Bool.and_eq_true, decide_eq_true_eq, and_assoc]

theorem idKey_inj_on_scalar {a b : Json} (ha : scalarId a = true) (hb : scalarId b = true)
    (h : idKey a = idKey b) : a = b := by
  rw [idKey, idKey, toLex_inj, Prod.ext_iff, toLex_inj, Prod.ext_iff] at h
  obtain ⟨hr, hn, hs⟩ := h
  cases a <;> cases b <;>
    simp_all [jsonRank, jsonNumVal, jsonStrVal, scalarId] <;>
    rename_i x y <;> cases x <;> cases y <;> simp_all

theorem natMin?_eq_some_iff {l : List Nat} {a : Nat} :
    l.min? = some a ↔ a ∈ l ∧ ∀ b ∈ l, a ≤ b :=
  List.min?_eq_some_iff (fun x => Nat.le_refl x) (fun x y => min_choice x y)
    (fun x y z => le_min_iff)

theorem min?_perm {l1 l2 : List Nat} (hp : List.Perm l1 l2) : l1.min? = l2.min? := by
  cases h : l1.min? with
  | none =>
    have h1 : l1 = [] := List.min?_eq_none_iff.1 h
    subst h1
    rw [← hp.nil_eq]
    simp
  | some a =>
    rw [natMin?_eq_some_iff] at h
    exact (natMin?_eq_some_iff.2
      ⟨hp.mem_iff.1 h.1, fun b hb => h.2 b (hp.mem_iff.2 hb)⟩).symm

theorem mem_idsOf {rows : List Row} {pid : Json} :
    pid ∈ idsOf rows ↔ pid ≠ Json.null ∧ ∃ r ∈ rows, r.id = pid := by
  simp only [idsOf, List.mem_insertionSort, mem_dedupKeepFirst, List.mem_filter,
    List.mem_map, decide_eq_true_eq]
  constructor
  · rintro ⟨⟨r, hr, rfl⟩, hne⟩
    exact ⟨hne, r, hr, rfl⟩
  · rintro ⟨hne, r, hr, rfl⟩
    exact ⟨⟨r, hr, rfl⟩, hne⟩

theorem pairEvents_invariant {pid : Json} {hist : List Row} {e : ChangeEvent}
    (he : e ∈ pairEvents pid hist) :
    e.id = pid ∧ e.field ∈ monitor_fields ∧ e.old_value ≠ e.new_value ∧
      e.old_value ≠ "" ∧ e.new_value ≠ "" := by
  simp only [pairEvents, List.mem_flatMap, List.mem_filterMap] at he
  obtain ⟨pc, _, f, hf, hcond⟩ := he
  by_cases hc : pdStr (pc.1.get f) ≠ pdStr (pc.2.get f) ∧
      pdStr (pc.1.get f) ≠ "" ∧ pdStr (pc.2.get f) ≠ ""
  · rw [if_pos hc] at hcond
    cases hcond
    exact ⟨rfl, hf, hc.1, hc.2.1, hc.2.2⟩
  · rw [if_neg hc] at hcond
    cases hcond

theorem detect_changes_invariant {dfs : List (List Row)} {e : ChangeEvent}
    (he : e ∈ detect_changes dfs) :
    e.id ≠ Json.null ∧ e.field ∈ monitor_fields ∧ e.old_value ≠ e.new_value ∧
      e.old_value ≠ "" ∧ e.new_value ≠ "" := by
  rw [detect_changes] at he
  by_cases hlen : dfs.length < 2
  · rw [if_pos hlen] at he
    cases he
  · rw [if_neg hlen] at he
    rw [mem_dedupKeepFirst, List.mem_flatMap] at he
    obtain ⟨pid, hpid, hev⟩ := he
    obtain ⟨hid, hmf, hne, ho, hn⟩ := pairEvents_invariant hev
    exact ⟨hid ▸ (mem_idsOf.1 hpid).1, hmf, hne, ho, hn⟩

theorem pairEvents_mem_iff {pid : Json} {hist : List Row} {i : Nat} {f : String}
    (hi : i < hist.length) (hi1 : i + 1 < hist.length) (hf : f ∈ monitor_fields) :
    ({ id := pid, field := f, old_value := pdStr (hist[i].get f)
     , new_value := pdStr (hist[i + 1].get f)
     , change_date := hist[i + 1].crawledAt } : ChangeEvent) ∈ pairEvents pid hist ↔
      (pdStr (hist[i].get f) ≠ pdStr (hist[i + 1].get f) ∧
        pdStr (hist[i].get f) ≠ "" ∧ pdStr (hist[i + 1].get f) ≠ "") := by
  constructor
  · intro hmem
    have := pairEvents_invariant hmem
    exact ⟨this.2.2.1, this.2.2.2.1, this.2.2.2.2⟩
  · intro hcond
    simp only [pairEvents, List.mem_flatMap]
    refine ⟨(hist[i], hist[i + 1]), ?_, ?_⟩
    · have hzlen : i < (hist.zip hist.tail).length := by
        rw [List.length_zip, List.length_tail]
        omega
      have : (hist.zip hist.tail)[i] = (hist[i], hist[i + 1]) := by
        rw [List.getElem_zip, List.getElem_tail]
      exact this ▸ List.getElem_mem hzlen
    · rw [List.mem_filterMap]
      exact ⟨f, hf, by rw [if_pos hcond]⟩

/-- C2 (amended to `detect_changes`, the component the spec describes): for
every id and every temporally adjacent pair of its records, and every
monitored field, `detect_changes` emits the corresponding event — whose
`change_date` is the later record's `crawled_at` — iff both serializations
(null as the empty string) are non-empty and differ.  (The single-pass
`process_all_json_files` does not satisfy this: see the counterexample.) -/
theorem C2_detect_changes_emission (dfs : List (List Row)) (pid : Json) (i : Nat)
    (f : String) (h2 : 2 ≤ dfs.length) (hpid : pid ∈ idsOf dfs.flatten)
    (hf : f ∈ monitor_fields) (hi : i < (histOf dfs.flatten pid).length)
    (hi1 : i + 1 < (histOf dfs.flatten pid).length) :
    (({ id := pid, field := f
      , old_value := pdStr ((histOf dfs.flatten pid)[i].get f)
      , new_value := pdStr ((histOf dfs.flatten pid)[i + 1].get f)
      , change_date := (histOf dfs.flatten pid)[i + 1].crawledAt } : ChangeEvent) ∈
        detect_changes dfs) ↔
      (pdStr ((histOf dfs.flatten pid)[i].get f) ≠
          pdStr ((histOf dfs.flatten pid)[i + 1].get f) ∧
        pdStr ((histOf dfs.flatten pid)[i].get f) ≠ "" ∧
        pdStr ((histOf dfs.flatten pid)[i + 1].get f) ≠ "") := by
  rw [detect_changes, if_neg (by omega), mem_dedupKeepFirst, List.mem_flatMap]
  constructor
  · rintro ⟨pid2, _, hev⟩
    have h := pairEvents_invariant hev
    exact ⟨h.2.2.1, h.2.2.2.1, h.2.2.2.2⟩
  · intro hcond
    exact ⟨pid, hpid, (pairEvents_mem_iff hi hi1 hf).2 hcond⟩

theorem C2_detect_changes_emission_witness :
    ({ id := Json.num 1, field := "price", old_value := "500", new_value := "600"
     , change_date := 200 } : ChangeEvent) ∈
      detect_changes [[{ id := Json.num 1, crawledAt := 100
                       , attrs := [("price", Json.num 500)] }],
                      [{ id := Json.num 1, crawledAt := 200
                       , attrs := [("price", Json.num 600)] }]] := by
  have h := (C2_detect_changes_emission
    [[{ id := Json.num 1, crawledAt := 100, attrs := [("price", Json.num 500)] }],
     [{ id := Json.num 1, crawledAt := 200, attrs := [("price", Json.num 600)] }]]
    (Json.num 1) 0 "price" (by decide) (by decide) (by decide) (by decide)
    (by decide)).2 (by decide)
  exact h

theorem C2_process_all_json_files_counterexample :
    pdStr Json.null = "" ∧
    (process_datafiles
      [some [{ id := Json.num 1, crawledAt := 100, attrs := [("price", Json.null)] }],
       some [{ id := Json.num 1, crawledAt := 200, attrs := [("price", Json.num 100)] }]]).2 =
      [{ id := Json.num 1, field := "price", old_value := Json.null
       , new_value := Json.num 100, old_date := 100, new_date := 200 }] :=
  ⟨rfl, by decide⟩

/-- C5: within one snapshot batch, deduplication keeps at most one record per
id, namely the last occurrence in record order; in particular two raw
records with id 7 and prices 500 then 550 canonicalize to the single record
(id 7, price 550). -/
theorem C5_dedup_keeps_last :
    (∀ rows pid, ((dedupLast rows).filter (fun r => r.id = pid)).length ≤ 1) ∧
    (∀ rows pid, (dedupLast rows).filter (fun r => r.id = pid) =
      ((rows.filter (fun r => r.id = pid)).getLast?).toList) ∧
    ((process_json_to_parquet
      { crawledAt := 100
      , properties :=
        [ jobj [("id", Json.num 7), ("prices", jobj [("rawPrice", Json.num 500)])]
        , jobj [("id", Json.num 7), ("prices", jobj [("rawPrice", Json.num 550)])] ] }).map
      (fun rows => rows.map (fun r => (r.id, r.get "price"))) =
      some [(Json.num 7, Json.num 550)]) := by
  refine ⟨fun rows pid => ?_, dedupLast_filter_id, by decide⟩
  rw [dedupLast_filter_id]
  cases (rows.filter (fun r => r.id = pid)).getLast? <;> simp

/-- C8 (amended): the amenity encoding is a deterministic function of the raw
`privativeItems` value, so identical lists in identical order canonicalize to
equal text; but `privative_items` is outside `detect_changes`'s monitored
field set — every emitted event's field is monitored, and `privative_items`
is not among them — so an amenity change is not reflected in
`detect_changes`'s event output (the single-pass pipeline, which diffs every
non-timestamp column, does report it). -/
theorem C8_privative_items_not_monitored :
    (∀ dfs e, e ∈ detect_changes dfs → e.field ∈ monitor_fields) ∧
    ("privative_items" ∉ monitor_fields) ∧
    (∀ p1 p2 : Json,
      jgetD p1 "privativeItems" (jarr []) = jgetD p2 "privativeItems" (jarr []) →
      privItems p1 = privItems p2) ∧
    ((process_datafiles
      [some [{ id := Json.num 1, crawledAt := 100
             , attrs := [("privative_items", Json.str "[\"a\"]")] }],
       some [{ id := Json.num 1, crawledAt := 200
             , attrs := [("privative_items", Json.str "[\"b\"]")] }]]).2.map
        PChange.field = ["privative_items"]) := by
  refine ⟨fun dfs e he => (detect_changes_invariant he).2.1, by decide,
    fun p1 p2 h => ?_, by decide⟩
  rw [privItems, privItems, h]

theorem C8_privative_items_not_monitored_witness :
    "price" ∈ monitor_fields ∧
    privItems (jobj [("privativeItems", jarr [jobj [("name", Json.str "pool")]])]) =
      privItems (jobj [("privativeItems", jarr [jobj [("name", Json.str "pool")]])
                      , ("estado", Json.str "PR")]) :=
  ⟨C8_privative_items_not_monitored.1
      [[{ id := Json.num 1, crawledAt := 100, attrs := [("price", Json.num 500)] }],
       [{ id := Json.num 1, crawledAt := 200, attrs := [("price", Json.num 600)] }]]
      { id := Json.num 1, field := "price", old_value := "500", new_value := "600"
      , change_date := 200 } (by decide),
    C8_privative_items_not_monitored.2.2.1 _ _ (by decide)⟩

theorem C8_amenity_change_counterexample :
    privItems (jobj [("id", Json.num 1)
                    , ("privativeItems", jarr [jobj [("name", Json.str "a")]])]) ≠
      privItems (jobj [("id", Json.num 1)
                      , ("privativeItems", jarr [jobj [("name", Json.str "b")]])]) ∧
    detect_changes (process_all_raw_data
      [ { crawledAt := 100
        , properties := [jobj [("id", Json.num 1)
                        , ("privativeItems", jarr [jobj [("name", Json.str "a")]])]] }
      , { crawledAt := 200
        , properties := [jobj [("id", Json.num 1)
                        , ("privativeItems", jarr [jobj [("name", Json.str "b")]])]] } ]) =
      [] := by
  exact ⟨by decide, by decide⟩

theorem C4_null_id_state_row_counterexample :
    (prepare_for_database
      [[{ id := Json.null, crawledAt := 100, attrs := [("price", Json.num 5)] }]]).map
      StateRow.id = [Json.null] := by
  decide

theorem C7_zero_and_text_counterexample :
    (extract_property_features
      (jobj [("area", jobj [("total", Json.num 0)])
            , ("prices", jobj [("rawPrice", Json.str "500")])])).map
      (fun out => (out.lookup "total_area", out.lookup "price")) =
      Except.ok (some Json.null, some (Json.str "500")) := by
  decide

theorem C6_record_failure_aborts_snapshot_counterexample :
    extract_property_features
        (jobj [("id", Json.num 9), ("area", jobj [("total", Json.str "abc")])]) =
      Except.error () ∧
    (extract_property_features (jobj [("id", Json.num 1)])).toOption.isSome = true ∧
    process_json_to_parquet
      { crawledAt := 100
      , properties := [ jobj [("id", Json.num 9), ("area", jobj [("total", Json.str "abc")])]
                      , jobj [("id", Json.num 1)] ] } = none := by
  exact ⟨by decide, by decide, by decide⟩

theorem C9_supply_order_counterexample :
    (process_datafiles
      [some [{ id := Json.num 1, crawledAt := 100, attrs := [("price", Json.num 100)] }],
       some [{ id := Json.num 1, crawledAt := 200, attrs := [("price", Json.num 200)] }]]).2 ≠
    (process_datafiles
      [some [{ id := Json.num 1, crawledAt := 200, attrs := [("price", Json.num 200)] }],
       some [{ id := Json.num 1, crawledAt := 100, attrs := [("price", Json.num 100)] }]]).2 := by
  decide

theorem orElse_none {α : Type} (x : Option α) :
    (x.orElse (fun _ => none)) = x := by
  cases x <;> rfl

theorem orElse_assoc {α : Type} (x : Option α) (f g : Unit → Option α) :
    ((x.orElse f).orElse g) = x.orElse (fun _ => (f ()).orElse g) := by
  cases x <;> rfl

theorem stepRow_firstSeen (st : PState) (r : Row) (pid : Json)
    (hpid : pid ≠ Json.null) :
    alookup (stepRow st r).firstSeen pid =
      (alookup st.firstSeen pid).orElse
        (fun _ => if r.id = pid then some r.crawledAt else none) := by
  rw [stepRow]
  by_cases hnull : r.id = Json.null
  · rw [if_pos hnull,
      if_neg (show ¬ r.id = pid from fun h => hpid (by rw [← h]; exact hnull)),
      orElse_none]
  · rw [if_neg hnull]
    show alookup (if (alookup st.firstSeen r.id).isSome then st.firstSeen
        else st.firstSeen ++ [(r.id, r.crawledAt)]) pid =
      (alookup st.firstSeen pid).orElse
        (fun _ => if r.id = pid then some r.crawledAt else none)
    by_cases hpres : (alookup st.firstSeen r.id).isSome = true
    · rw [if_pos hpres]
      cases hres : alookup st.firstSeen pid with
      | some t => rfl
      | none =>
        have hne : r.id ≠ pid := by
          intro h
          rw [h, hres] at hpres
          simp at hpres
        show none = (Option.none).orElse
          (fun _ => if r.id = pid then some r.crawledAt else none)
        rw [if_neg hne]
        rfl
    · rw [if_neg hpres, alookup_append]
      rfl

theorem foldl_stepRow_firstSeen (rows : List Row) (st : PState) (pid : Json)
    (hpid : pid ≠ Json.null) :
    alookup ((rows.foldl stepRow st).firstSeen) pid =
      (alookup st.firstSeen pid).orElse
        (fun _ => (rows.find? (fun r => r.id = pid)).map Row.crawledAt) := by
  induction rows generalizing st with
  | nil => exact (orElse_none _).symm
  | cons r rest ih =>
    show alookup ((rest.foldl stepRow (stepRow st r)).firstSeen) pid = _
    rw [ih (stepRow st r), stepRow_firstSeen st r pid hpid, orElse_assoc]
    congr 1
    funext u
    rw [List.find?_cons]
    by_cases hr : r.id = pid
    · rw [if_pos hr]
      have : (decide (r.id = pid)) = true := by simp [hr]
      rw [this]
      rfl
    · rw [if_neg hr]
      have : (decide (r.id = pid)) = false := by simp [hr]
      rw [this]
      rfl

theorem foldl_stepFile_firstSeen (dfsOpt : List (Option (List Row))) (st : PState)
    (pid : Json) (hpid : pid ≠ Json.null) :
    alookup ((dfsOpt.foldl stepFile st).firstSeen) pid =
      (alookup st.firstSeen pid).orElse (fun _ => firstSeenSpec dfsOpt pid) := by
  induction dfsOpt generalizing st with
  | nil => exact (orElse_none _).symm
  | cons d rest ih =>
    show alookup ((rest.foldl stepFile (stepFile st d)).firstSeen) pid = _
    rw [ih (stepFile st d)]
    cases d with
    | none => rw [stepFile, firstSeenSpec]
    | some rows =>
      rw [stepFile, firstSeenSpec]
      by_cases he : rows.isEmpty
      · rw [if_pos he, if_pos he]
      · rw [if_neg he, if_neg he, foldl_stepRow_firstSeen _ _ _ hpid, orElse_assoc]
        congr 1
        funext u
        cases hf : (dedupLast rows).find? (fun r => r.id = pid) with
        | some r => rfl
        | none => rfl

theorem stepRow_prev_keys (st : PState) (r : Row) :
    ∀ kv ∈ (stepRow st r).prev, kv ∈ st.prev ∨ kv.1 = r.id := by
  rw [stepRow]
  by_cases hnull : r.id = Json.null
  · rw [if_pos hnull]
    exact fun kv hkv => Or.inl hkv
  · rw [if_neg hnull]
    intro kv hkv
    show kv ∈ st.prev ∨ kv.1 = r.id
    have hkv2 : kv ∈ dictUpdate st.prev r.id r := hkv
    rw [dictUpdate] at hkv2
    by_cases hpres : st.prev.any (fun kv => kv.1 = r.id)
    · rw [if_pos hpres] at hkv2
      rw [List.mem_map] at hkv2
      obtain ⟨kv0, hkv0, heq⟩ := hkv2
      by_cases hk : kv0.1 = r.id
      · rw [if_pos hk] at heq
        right
        rw [← heq]
      · rw [if_neg hk] at heq
        exact Or.inl (heq ▸ hkv0)
    · rw [if_neg hpres] at hkv2
      rcases List.mem_append.1 hkv2 with hm | hm
      · exact Or.inl hm
      · right
        rcases List.mem_singleton.1 hm with rfl
        rfl

theorem stepRow_firstSeen_mono (st : PState) (r : Row) (k : Json)
    (h : (alookup st.firstSeen k).isSome = true) :
    (alookup (stepRow st r).firstSeen k).isSome = true := by
  rw [stepRow]
  by_cases hnull : r.id = Json.null
  · rw [if_pos hnull]
    exact h
  · rw [if_neg hnull]
    show (alookup (if (alookup st.firstSeen r.id).isSome then st.firstSeen
        else st.firstSeen ++ [(r.id, r.crawledAt)]) k).isSome = true
    by_cases hpres : (alookup st.firstSeen r.id).isSome = true
    · rw [if_pos hpres]
      exact h
    · rw [if_neg hpres, alookup_append]
      cases hres : alookup st.firstSeen k with
      | some t => rfl
      | none => rw [hres] at h; simp at h

theorem stepRow_firstSeen_self (st : PState) (r : Row) (hnull : r.id ≠ Json.null) :
    (alookup (stepRow st r).firstSeen r.id).isSome = true := by
  rw [stepRow, if_neg hnull]
  show (alookup (if (alookup st.firstSeen r.id).isSome then st.firstSeen
      else st.firstSeen ++ [(r.id, r.crawledAt)]) r.id).isSome = true
  by_cases hpres : (alookup st.firstSeen r.id).isSome = true
  · rw [if_pos hpres]
    exact hpres
  · rw [if_neg hpres, alookup_append]
    cases hres : alookup st.firstSeen r.id with
    | some t => rw [hres] at hpres; simp at hpres
    | none =>
      show (alookup [(r.id, r.crawledAt)] r.id).isSome = true
      rw [alookup]
      simp

theorem stepRow_prev_firstSeen (st : PState) (r : Row)
    (h : ∀ kv ∈ st.prev, (alookup st.firstSeen kv.1).isSome = true) :
    ∀ kv ∈ (stepRow st r).prev, (alookup (stepRow st r).firstSeen kv.1).isSome = true := by
  intro kv hkv
  rcases stepRow_prev_keys st r kv hkv with hm | hk
  · exact stepRow_firstSeen_mono st r kv.1 (h kv hm)
  · by_cases hnull : r.id = Json.null
    · have hstep : stepRow st r = st := by rw [stepRow, if_pos hnull]
      rw [hstep] at hkv ⊢
      exact h kv hkv
    · rw [hk]
      exact stepRow_firstSeen_self st r hnull

theorem foldl_stepRow_prev_firstSeen (rows : List Row) (st : PState)
    (h : ∀ kv ∈ st.prev, (alookup st.firstSeen kv.1).isSome = true) :
    ∀ kv ∈ (rows.foldl stepRow st).prev,
      (alookup (rows.foldl stepRow st).firstSeen kv.1).isSome = true := by
  induction rows generalizing st with
  | nil => exact h
  | cons r rest ih => exact ih (stepRow st r) (stepRow_prev_firstSeen st r h)

theorem foldl_stepFile_prev_firstSeen (dfsOpt : List (Option (List Row))) (st : PState)
    (h : ∀ kv ∈ st.prev, (alookup st.firstSeen kv.1).isSome = true) :
    ∀ kv ∈ (dfsOpt.foldl stepFile st).prev,
      (alookup (dfsOpt.foldl stepFile st).firstSeen kv.1).isSome = true := by
  induction dfsOpt generalizing st with
  | nil => exact h
  | cons d rest ih =>
    refine ih (stepFile st d) ?_
    cases d with
    | none => exact h
    | some rows =>
      rw [stepFile]
      by_cases he : rows.isEmpty
      · rw [if_pos he]
        exact h
      · rw [if_neg he]
        exact foldl_stepRow_prev_firstSeen (dedupLast rows) st h

theorem snapsChronoB_cons {d : List Row} {rest : List (List Row)}
    (h : snapsChronoB (d :: rest) = true) :
    (∀ r1 ∈ d, ∀ r2 ∈ d, r1.crawledAt = r2.crawledAt) ∧
    (∀ r1 ∈ d, ∀ r2 ∈ rest.flatten, r1.crawledAt ≤ r2.crawledAt) ∧
    snapsChronoB rest = true := by
  rw [snapsChronoB] at h
  simp only [Bool.and_eq_true, List.all_eq_true, decide_eq_true_eq] at h
  exact ⟨h.1.1, h.1.2, h.2⟩

theorem chrono_min : ∀ dfs : List (List Row), snapsChronoB dfs = true →
    ∀ (pid : Json) (t : Nat), firstSeenSpec (dfs.map some) pid = some t →
    ((dfs.flatten.filter (fun r => r.id = pid)).map Row.crawledAt).min? = some t := by
  intro dfs
  induction dfs with
  | nil =>
    intro _ pid t hspec
    rw [List.map_nil, firstSeenSpec] at hspec
    cases hspec
  | cons d rest ih =>
    intro hc pid t hspec
    obtain ⟨huni, hle, hcr⟩ := snapsChronoB_cons hc
    rw [List.map_cons, firstSeenSpec] at hspec
    by_cases he : d.isEmpty
    · rw [if_pos he] at hspec
      have hd : d = [] := List.isEmpty_iff.1 he
      subst hd
      have := ih hcr pid t hspec
      simpa using this
    · rw [if_neg he] at hspec
      cases hf : (dedupLast d).find? (fun r => r.id = pid) with
      | some r =>
        rw [hf] at hspec
        have ht : t = r.crawledAt := (Option.some.inj hspec).symm
        subst ht
        have hrd : r ∈ d := mem_dedupLast (List.mem_of_find?_eq_some hf)
        have hrid : r.id = pid := by
          have := List.find?_some hf
          simpa using this
        apply natMin?_eq_some_iff.2
        constructor
        · apply List.mem_map.2
          refine ⟨r, ?_, rfl⟩
          rw [List.mem_filter]
          refine ⟨?_, by simp [hrid]⟩
          rw [List.flatten_cons]
          exact List.mem_append.2 (Or.inl hrd)
        · intro b hb
          obtain ⟨rb, hrb, hrbe⟩ := List.mem_map.1 hb
          rw [List.mem_filter] at hrb
          have hrbm := hrb.1
          rw [List.flatten_cons] at hrbm
          rcases List.mem_append.1 hrbm with hmd | hmr
          · rw [← hrbe, huni r hrd rb hmd]
          · rw [← hrbe]
            exact hle r hrd rb hmr
      | none =>
        rw [hf] at hspec
        have hnone : ∀ rb ∈ d, rb.id ≠ pid := by
          intro rb hrb hcon
          have hocc : ∃ x ∈ dedupLast d, x.id = pid :=
            dedupLast_id_occurs.2 ⟨rb, hrb, hcon⟩
          obtain ⟨x, hx, hxid⟩ := hocc
          have := List.find?_eq_none.1 hf x hx
          simp [hxid] at this
        have hfilter : d.filter (fun r => r.id = pid) = [] := by
          rw [List.filter_eq_nil_iff]
          intro x hx
          simp only [decide_eq_true_eq]
          exact hnone x hx
        rw [List.flatten_cons, List.filter_append, hfilter, List.nil_append]
        exact ih hcr pid t hspec

/-- C9 (amended): the two-stage components re-sort by observation time and
are insensitive to the order in which the snapshot dataframes are supplied —
given distinct observation timestamps (so that sorting is unambiguous) and
scalar ids, a permutation of the snapshot list leaves both the change-event
list and the state table unchanged.  (The single-pass pipeline trusts the
supplied file order and is order-sensitive: see the counterexample.  Re-running
either pipeline on the same input trivially reproduces its output, since both
are functions of the input alone.) -/
theorem C9_two_stage_order_insensitive (dfs1 dfs2 : List (List Row))
    (hp : List.Perm dfs1 dfs2)
    (hnd : (dfs1.flatten.map Row.crawledAt).Nodup)
    (hsc : ∀ r ∈ dfs1.flatten, scalarId r.id = true) :
    detect_changes dfs1 = detect_changes dfs2 ∧
    prepare_for_database dfs1 = prepare_for_database dfs2 := by
  have hflat : List.Perm dfs1.flatten dfs2.flatten := hp.flatten
  have hsorteq : sortByCrawled dfs1.flatten = sortByCrawled dfs2.flatten :=
    sortByCrawled_perm_eq hflat hnd
  have hprep : prepare_for_database dfs1 = prepare_for_database dfs2 := by
    by_cases he : dfs1.isEmpty = true
    · have he2 : dfs2.isEmpty = true := by
        rw [List.isEmpty_iff] at he ⊢
        rw [he] at hp
        exact hp.nil_eq.symm
      rw [prepare_for_database, prepare_for_database, if_pos he, if_pos he2]
    · have he2 : ¬ dfs2.isEmpty = true := by
        rw [List.isEmpty_iff] at he ⊢
        intro hcon
        rw [hcon] at hp
        exact he hp.symm.nil_eq.symm
      rw [prepare_for_database, prepare_for_database, if_neg he, if_neg he2, hsorteq]
  have hids : idsOf dfs1.flatten = idsOf dfs2.flatten := by
    rw [idsOf, idsOf]
    have hpf : List.Perm ((dfs1.flatten.map Row.id).filter (fun v => v ≠ Json.null))
        ((dfs2.flatten.map Row.id).filter (fun v => v ≠ Json.null)) :=
      (hflat.map _).filter _
    apply insertionSort_key_eq idKey idLe idLe_iff_key
    · exact (List.perm_ext_iff_of_nodup (nodup_dedupKeepFirst _)
        (nodup_dedupKeepFirst _)).2
        (fun a => by rw [mem_dedupKeepFirst, mem_dedupKeepFirst]; exact hpf.mem_iff)
    · apply List.Nodup.map_on _ (nodup_dedupKeepFirst _)
      intro x hx y hy hxy
      have hxm := (mem_dedupKeepFirst _ x).1 hx
      have hym := (mem_dedupKeepFirst _ y).1 hy
      rw [List.mem_filter, List.mem_map] at hxm hym
      obtain ⟨⟨rx, hrx, hrxe⟩, _⟩ := hxm
      obtain ⟨⟨ry, hry, hrye⟩, _⟩ := hym
      exact idKey_inj_on_scalar (hrxe ▸ hsc rx hrx) (hrye ▸ hsc ry hry) hxy
  have hhist : ∀ pid, histOf dfs1.flatten pid = histOf dfs2.flatten pid := by
    intro pid
    rw [histOf, histOf]
    apply insertionSort_key_eq Row.crawledAt rowLe (fun _ _ => Iff.rfl)
    · exact hflat.filter _
    · exact hnd.sublist ((List.filter_sublist _).map _)
  have hdet : detect_changes dfs1 = detect_changes dfs2 := by
    rw [detect_changes, detect_changes, hp.length_eq]
    by_cases h2 : dfs2.length < 2
    · rw [if_pos h2, if_pos h2]
    · rw [if_neg h2, if_neg h2]
      show dedupKeepFirst ((idsOf dfs1.flatten).flatMap
          (fun pid => pairEvents pid (histOf dfs1.flatten pid))) =
        dedupKeepFirst ((idsOf dfs2.flatten).flatMap
          (fun pid => pairEvents pid (histOf dfs2.flatten pid)))
      rw [hids]
      congr 1
      exact congrArg ((idsOf dfs2.flatten).flatMap)
        (funext fun pid => by rw [hhist pid])
  exact ⟨hdet, hprep⟩

theorem C9_two_stage_order_insensitive_witness :
    detect_changes [[{ id := Json.num 1, crawledAt := 100, attrs := [("price", Json.num 7)] }],
                    [{ id := Json.num 1, crawledAt := 200, attrs := [("price", Json.num 9)] }]] =
      detect_changes [[{ id := Json.num 1, crawledAt := 200, attrs := [("price", Json.num 9)] }],
                      [{ id := Json.num 1, crawledAt := 100, attrs := [("price", Json.num 7)] }]] ∧
    prepare_for_database
        [[{ id := Json.num 1, crawledAt := 100, attrs := [("price", Json.num 7)] }],
         [{ id := Json.num 1, crawledAt := 200, attrs := [("price", Json.num 9)] }]] =
      prepare_for_database
        [[{ id := Json.num 1, crawledAt := 200, attrs := [("price", Json.num 9)] }],
         [{ id := Json.num 1, crawledAt := 100, attrs := [("price", Json.num 7)] }]] :=
  C9_two_stage_order_insensitive
    [[{ id := Json.num 1, crawledAt := 100, attrs := [("price", Json.num 7)] }],
     [{ id := Json.num 1, crawledAt := 200, attrs := [("price", Json.num 9)] }]]
    [[{ id := Json.num 1, crawledAt := 200, attrs := [("price", Json.num 9)] }],
     [{ id := Json.num 1, crawledAt := 100, attrs := [("price", Json.num 7)] }]]
    (List.Perm.swap _ _ _) (by decide) (by decide)

theorem C10_pipelines_disagree_counterexample :
    (process_datafiles
      [some [{ id := Json.num 2, crawledAt := 100, attrs := [("price", Json.null)] }],
       some [{ id := Json.num 2, crawledAt := 200, attrs := [("price", Json.num 100)] }]]).2.length = 1 ∧
    detect_changes
      [[{ id := Json.num 2, crawledAt := 100, attrs := [("price", Json.null)] }],
       [{ id := Json.num 2, crawledAt := 200, attrs := [("price", Json.num 100)] }]] = [] := by
  exact ⟨by decide, by decide⟩

theorem exBind_ok {α β : Type} (a : α) (f : α → Except Unit β) :
    (Except.ok a >>= f) = f a := rfl

theorem exBind_error {α β : Type} (u : Unit) (f : α → Except Unit β) :
    ((Except.error u : Except Unit α) >>= f) = Except.error u := rfl

theorem seqFields_ok_lookup {l : List (String × Except Unit Json)}
    {out : List (String × Json)} (h : seqFields l = Except.ok out) (k : String) :
    List.lookup k out = (List.lookup k l).bind Except.toOption := by
  induction l generalizing out with
  | nil =>
    rw [seqFields] at h
    cases h
    simp
  | cons kv rest ih =>
    obtain ⟨k0, e0⟩ := kv
    rw [seqFields] at h
    cases he : e0 with
    | error u => rw [he] at h; cases h
    | ok v =>
      rw [he] at h
      cases hr : seqFields rest with
      | error u => rw [hr] at h; cases h
      | ok r =>
        rw [hr] at h
        simp only [exBind_ok] at h
        cases h
        by_cases hk : k == k0
        · simp [List.lookup, hk, Except.toOption]
        · simp only [List.lookup, hk]
          exact ih hr

theorem numField2_via_pass (prop : Json) (k1 k2 : String) :
    numField2 prop k1 k2 = (passField2 prop k1 k2) >>=
      (fun v => if truthy v then (pyFloat v).map Json.num else Except.ok Json.null) := by
  rw [numField2, passField2]
  cases h1 : jgetD prop k1 (jobj []) with
  | error u => simp only [exBind_ok, exBind_error]
  | ok a => simp only [exBind_ok, exBind_error]

theorem numField3_via_pass (prop : Json) (k1 k2 k3 : String) :
    numField3 prop k1 k2 k3 = (passField3 prop k1 k2 k3) >>=
      (fun v => if truthy v then (pyFloat v).map Json.num else Except.ok Json.null) := by
  rw [numField3, passField3]
  cases h1 : jgetD prop k1 (jobj []) with
  | error u => simp only [exBind_ok, exBind_error]
  | ok a =>
    simp only [exBind_ok, exBind_error]
    cases h2 : jgetD a k2 (jobj []) with
    | error u => simp only [exBind_ok, exBind_error]
    | ok b => simp only [exBind_ok, exBind_error]

/-- C7 (amended): in `extract_property_features`, the area and coordinate
fields are float-coerced only when the raw value is present and truthy — a
raw zero, like a missing value, yields null — while the price and count
fields are passed through without any coercion. -/
theorem C7_numeric_coercion (prop : Json) (out : List (String × Json))
    (h : extract_property_features prop = Except.ok out) :
    (∀ v, passField2 prop "area" "total" = Except.ok v →
      (truthy v = false → List.lookup "total_area" out = some Json.null) ∧
      (∀ n, truthy v = true → pyFloat v = Except.ok n →
        List.lookup "total_area" out = some (Json.num n))) ∧
    (∀ v, passField2 prop "area" "useful" = Except.ok v →
      (truthy v = false → List.lookup "useful_area" out = some Json.null) ∧
      (∀ n, truthy v = true → pyFloat v = Except.ok n →
        List.lookup "useful_area" out = some (Json.num n))) ∧
    (∀ v, passField3 prop "location" "geoposition" "lat" = Except.ok v →
      (truthy v = false → List.lookup "latitude" out = some Json.null) ∧
      (∀ n, truthy v = true → pyFloat v = Except.ok n →
        List.lookup "latitude" out = some (Json.num n))) ∧
    (∀ v, passField3 prop "location" "geoposition" "lon" = Except.ok v →
      (truthy v = false → List.lookup "longitude" out = some Json.null) ∧
      (∀ n, truthy v = true → pyFloat v = Except.ok n →
        List.lookup "longitude" out = some (Json.num n))) ∧
    (∀ v, passField2 prop "prices" "rawPrice" = Except.ok v →
      List.lookup "price" out = some v) ∧
    (∀ v, passField2 prop "properties" "bedrooms" = Except.ok v →
      List.lookup "bedrooms" out = some v) ∧
    (∀ v, passField2 prop "bathrooms" "count" = Except.ok v →
      List.lookup "bathrooms" out = some v) ∧
    (∀ v, passField2 prop "suites" "count" = Except.ok v →
      List.lookup "suites" out = some v) ∧
    (∀ v, passField2 prop "garages" "count" = Except.ok v →
      List.lookup "garages" out = some v) := by
  have hlk : ∀ fld e, List.lookup fld (featureSpecs prop) = some e →
      List.lookup fld out = e.toOption := by
    intro fld e hspec
    rw [seqFields_ok_lookup h fld, hspec]
    rfl
  refine ⟨fun v hv => ⟨fun htr => ?_, fun n htr hpf => ?_⟩,
    fun v hv => ⟨fun htr => ?_, fun n htr hpf => ?_⟩,
    fun v hv => ⟨fun htr => ?_, fun n htr hpf => ?_⟩,
    fun v hv => ⟨fun htr => ?_, fun n htr hpf => ?_⟩,
    fun v hv => ?_, fun v hv => ?_, fun v hv => ?_, fun v hv => ?_, fun v hv => ?_⟩
  · rw [hlk "total_area" _ rfl, numField2_via_pass, hv, exBind_ok,
      if_neg (by simp [htr])]; rfl
  · rw [hlk "total_area" _ rfl, numField2_via_pass, hv, exBind_ok, if_pos htr, hpf]; rfl
  · rw [hlk "useful_area" _ rfl, numField2_via_pass, hv, exBind_ok,
      if_neg (by simp [htr])]; rfl
  · rw [hlk "useful_area" _ rfl, numField2_via_pass, hv, exBind_ok, if_pos htr, hpf]; rfl
  · rw [hlk "latitude" _ rfl, numField3_via_pass, hv, exBind_ok,
      if_neg (by simp [htr])]; rfl
  · rw [hlk "latitude" _ rfl, numField3_via_pass, hv, exBind_ok, if_pos htr, hpf]; rfl
  · rw [hlk "longitude" _ rfl, numField3_via_pass, hv, exBind_ok,
      if_neg (by simp [htr])]; rfl
  · rw [hlk "longitude" _ rfl, numField3_via_pass, hv, exBind_ok, if_pos htr, hpf]; rfl
  · rw [hlk "price" _ rfl, hv]; rfl
  · rw [hlk "bedrooms" _ rfl, hv]; rfl
  · rw [hlk "bathrooms" _ rfl, hv]; rfl
  · rw [hlk "suites" _ rfl, hv]; rfl
  · rw [hlk "garages" _ rfl, hv]; rfl

theorem C7_numeric_coercion_witness :
    ∃ out, extract_property_features
        (jobj [("area", jobj [("total", Json.num 80)])
              , ("prices", jobj [("rawPrice", Json.num 1000)])]) = Except.ok out ∧
      List.lookup "total_area" out = some (Json.num 80) ∧
      List.lookup "price" out = some (Json.num 1000) := by
  refine ⟨_, rfl, ?_, ?_⟩
  · exact ((C7_numeric_coercion
      (jobj [("area", jobj [("total", Json.num 80)])
            , ("prices", jobj [("rawPrice", Json.num 1000)])]) _ rfl).1
      (Json.num 80) (by decide)).2 80 (by decide) (by decide)
  · exact (C7_numeric_coercion
      (jobj [("area", jobj [("total", Json.num 80)])
            , ("prices", jobj [("rawPrice", Json.num 1000)])]) _ rfl).2.2.2.2.1
      (Json.num 1000) (by decide)

/-- C6 (amended): canonicalization maps a missing key at any depth to null
without raising — shown for the numeric two-level extraction at both depths
and for a record with every monitored path missing — but when a record does
fail to parse (a present, non-numeric area value) the error is caught around
the whole snapshot: the snapshot is skipped in full, losing its remaining
records, while other snapshots are still processed. -/
theorem C6_missing_keys_safe_but_record_failure_aborts_snapshot :
    (∀ F k1 k2, JsonFields.lookup F k1 = none →
      numField2 (Json.obj F) k1 k2 = Except.ok Json.null) ∧
    (∀ F G k1 k2, JsonFields.lookup F k1 = some (Json.obj G) →
      JsonFields.lookup G k2 = none →
      numField2 (Json.obj F) k1 k2 = Except.ok Json.null) ∧
    ((extract_property_features (jobj [])).toOption.map
      (fun out => monitor_fields.all (fun f => List.lookup f out == some Json.null)) =
      some true) ∧
    (process_json_to_parquet
      { crawledAt := 100
      , properties := [ jobj [("id", Json.num 9), ("area", jobj [("total", Json.str "abc")])]
                      , jobj [("id", Json.num 1)] ] } = none) ∧
    ((process_all_raw_data
      [ { crawledAt := 100
        , properties := [ jobj [("id", Json.num 9)
                         , ("area", jobj [("total", Json.str "abc")])]
                       , jobj [("id", Json.num 1)] ] }
      , { crawledAt := 200, properties := [jobj [("id", Json.num 1)]] } ]).map
        (fun df => df.map Row.id) = [[Json.num 1]]) := by
  refine ⟨fun F k1 k2 h => ?_, fun F G k1 k2 h1 h2 => ?_, by decide, by decide, by decide⟩
  · rw [numField2]
    have hg : jgetD (Json.obj F) k1 (jobj []) = Except.ok (jobj []) := by
      simp [jgetD, h]
    rw [hg, exBind_ok]
    have hg2 : jget (jobj []) k2 = Except.ok Json.null := rfl
    rw [hg2, exBind_ok]
    rfl
  · rw [numField2]
    have hg : jgetD (Json.obj F) k1 (jobj []) = Except.ok (Json.obj G) := by
      simp [jgetD, h1]
    rw [hg, exBind_ok]
    have hg2 : jget (Json.obj G) k2 = Except.ok Json.null := by
      simp [jget, h2]
    rw [hg2, exBind_ok]
    rfl

theorem C6_missing_keys_safe_witness :
    numField2 (Json.obj JsonFields.nil) "area" "total" = Except.ok Json.null ∧
    numField2 (Json.obj (JsonFields.cons "area" (Json.obj JsonFields.nil) JsonFields.nil))
      "area" "total" = Except.ok Json.null :=
  ⟨C6_missing_keys_safe_but_record_failure_aborts_snapshot.1 JsonFields.nil "area" "total" rfl,
   C6_missing_keys_safe_but_record_failure_aborts_snapshot.2.1 _ JsonFields.nil "area" "total"
     rfl rfl⟩

theorem diffCols_id {old curr : Row} {c : PChange} (h : c ∈ diffCols old curr) :
    c.id = curr.id := by
  simp only [diffCols, List.mem_filterMap] at h
  obtain ⟨cn, _, hc⟩ := h
  by_cases hskip : cn = "crawled_at" ∨ cn = "updated_at"
  · rw [if_pos hskip] at hc
    cases hc
  · rw [if_neg hskip] at hc
    by_cases hne : pdStr (colVal old cn) ≠ pdStr (colVal curr cn)
    · rw [if_pos hne] at hc
      cases hc
      rfl
    · rw [if_neg hne] at hc
      cases hc

theorem stepRow_null_free {st : PState} {r : Row}
    (h1 : ∀ kv ∈ st.prev, kv.2.id = kv.1 ∧ kv.1 ≠ Json.null)
    (h2 : ∀ c ∈ st.changes, c.id ≠ Json.null) :
    (∀ kv ∈ (stepRow st r).prev, kv.2.id = kv.1 ∧ kv.1 ≠ Json.null) ∧
    (∀ c ∈ (stepRow st r).changes, c.id ≠ Json.null) := by
  rw [stepRow]
  by_cases hnull : r.id = Json.null
  · rw [if_pos hnull]
    exact ⟨h1, h2⟩
  · rw [if_neg hnull]
    constructor
    · intro kv hkv
      rw [dictUpdate] at hkv
      by_cases hpres : st.prev.any (fun kv => kv.1 = r.id)
      · rw [if_pos hpres] at hkv
        rw [List.mem_map] at hkv
        obtain ⟨kv0, hkv0, heq⟩ := hkv
        by_cases hk : kv0.1 = r.id
        · rw [if_pos hk] at heq
          cases heq
          exact ⟨rfl, hnull⟩
        · rw [if_neg hk] at heq
          exact heq ▸ h1 kv0 hkv0
      · rw [if_neg hpres] at hkv
        rcases List.mem_append.1 hkv with hm | hm
        · exact h1 kv hm
        · rcases List.mem_singleton.1 hm with rfl
          exact ⟨rfl, hnull⟩
    · intro c hc
      cases halo : alookup st.prev r.id with
      | none =>
        rw [halo] at hc
        exact h2 c hc
      | some old =>
        rw [halo] at hc
        rcases List.mem_append.1 hc with hm | hm
        · exact h2 c hm
        · exact (diffCols_id hm) ▸ hnull

theorem foldl_stepRow_null_free (rows : List Row) (st : PState)
    (h1 : ∀ kv ∈ st.prev, kv.2.id = kv.1 ∧ kv.1 ≠ Json.null)
    (h2 : ∀ c ∈ st.changes, c.id ≠ Json.null) :
    (∀ kv ∈ (rows.foldl stepRow st).prev, kv.2.id = kv.1 ∧ kv.1 ≠ Json.null) ∧
    (∀ c ∈ (rows.foldl stepRow st).changes, c.id ≠ Json.null) := by
  induction rows generalizing st with
  | nil => exact ⟨h1, h2⟩
  | cons r rest ih =>
    have hstep := @stepRow_null_free st r h1 h2
    exact ih (stepRow st r) hstep.1 hstep.2

theorem foldl_stepFile_null_free (dfs : List (Option (List Row))) (st : PState)
    (h1 : ∀ kv ∈ st.prev, kv.2.id = kv.1 ∧ kv.1 ≠ Json.null)
    (h2 : ∀ c ∈ st.changes, c.id ≠ Json.null) :
    (∀ kv ∈ (dfs.foldl stepFile st).prev, kv.2.id = kv.1 ∧ kv.1 ≠ Json.null) ∧
    (∀ c ∈ (dfs.foldl stepFile st).changes, c.id ≠ Json.null) := by
  induction dfs generalizing st with
  | nil => exact ⟨h1, h2⟩
  | cons d rest ih =>
    have hstep : (∀ kv ∈ (stepFile st d).prev, kv.2.id = kv.1 ∧ kv.1 ≠ Json.null) ∧
        (∀ c ∈ (stepFile st d).changes, c.id ≠ Json.null) := by
      cases d with
      | none => exact ⟨h1, h2⟩
      | some rows =>
        rw [stepFile]
        by_cases he : rows.isEmpty
        · rw [if_pos he]
          exact ⟨h1, h2⟩
        · rw [if_neg he]
          exact foldl_stepRow_null_free (dedupLast rows) st h1 h2
    exact ih (stepFile st d) hstep.1 hstep.2

/-- C4 (amended): null-id records reach no change event of either pipeline,
and the single-pass pipeline also keeps them out of its final state rows;
`prepare_for_database`, however, retains one state row with a null id when
such records exist (see the counterexample), so the exclusion does not
extend to the two-stage state table. -/
theorem C4_null_ids_excluded :
    (∀ dfs e, e ∈ detect_changes dfs → e.id ≠ Json.null) ∧
    (∀ dfsOpt e, e ∈ (process_datafiles dfsOpt).2 → e.id ≠ Json.null) ∧
    (∀ dfsOpt r, r ∈ (process_datafiles dfsOpt).1 → r.id ≠ Json.null) := by
  have hmain : ∀ dfsOpt : List (Option (List Row)),
      (∀ e ∈ (process_datafiles dfsOpt).2, e.id ≠ Json.null) ∧
      (∀ r ∈ (process_datafiles dfsOpt).1, r.id ≠ Json.null) := by
    intro dfsOpt
    match dfsOpt with
    | [] => exact ⟨fun e he => absurd he (List.not_mem_nil e),
        fun r hr => absurd hr (List.not_mem_nil r)⟩
    | [d] =>
      cases d with
      | none => exact ⟨fun e he => absurd he (List.not_mem_nil e),
          fun r hr => absurd hr (List.not_mem_nil r)⟩
      | some rows =>
        rw [process_datafiles]
        by_cases he : rows.isEmpty
        · rw [if_pos he]
          exact ⟨fun e he => absurd he (List.not_mem_nil e),
            fun r hr => absurd hr (List.not_mem_nil r)⟩
        · rw [if_neg he]
          refine ⟨fun e he => absurd he (List.not_mem_nil e), fun r hr => ?_⟩
          rw [List.mem_filter] at hr
          simpa using hr.2
    | d1 :: d2 :: rest =>
      have hinv := foldl_stepFile_null_free (d1 :: d2 :: rest)
        { prev := [], firstSeen := [], changes := [] }
        (fun kv hkv => absurd hkv (List.not_mem_nil kv))
        (fun c hc => absurd hc (List.not_mem_nil c))
      refine ⟨fun e he => hinv.2 e he, fun r hr => ?_⟩
      have hr2 : r ∈ (List.foldl stepFile { prev := [], firstSeen := [], changes := [] }
          (d1 :: d2 :: rest)).prev.map (fun kv =>
            { kv.2 with crawledAt := (alookup (List.foldl stepFile
                { prev := [], firstSeen := [], changes := [] }
                (d1 :: d2 :: rest)).firstSeen kv.1).getD kv.2.crawledAt }) := hr
      rw [List.mem_map] at hr2
      obtain ⟨kv, hkv, heq⟩ := hr2
      have := hinv.1 kv hkv
      rw [← heq]
      exact this.1 ▸ this.2
  exact ⟨fun dfs e he => (detect_changes_invariant he).1,
    fun dfsOpt e he => (hmain dfsOpt).1 e he,
    fun dfsOpt r hr => (hmain dfsOpt).2 r hr⟩

theorem C4_null_ids_excluded_witness :
    ({ id := Json.num 5, field := "price", old_value := "10", new_value := "20"
     , change_date := 400 } : ChangeEvent).id ≠ Json.null :=
  C4_null_ids_excluded.1
    [[{ id := Json.num 5, crawledAt := 300, attrs := [("price", Json.num 10)] }],
     [{ id := Json.num 5, crawledAt := 400, attrs := [("price", Json.num 20)] }]]
    { id := Json.num 5, field := "price", old_value := "10", new_value := "20"
    , change_date := 400 } (by decide)

theorem natMax?_eq_some_iff {l : List Nat} {a : Nat} :
    l.max? = some a ↔ a ∈ l ∧ ∀ b ∈ l, b ≤ a :=
  List.max?_eq_some_iff (fun x => Nat.le_refl x) (fun x y => max_choice x y)
    (fun x y z => max_le_iff)

theorem max?_perm {l1 l2 : List Nat} (hp : List.Perm l1 l2) : l1.max? = l2.max? := by
  cases h : l1.max? with
  | none =>
    have h1 : l1 = [] := List.max?_eq_none_iff.1 h
    subst h1
    rw [← hp.nil_eq]
    simp
  | some a =>
    rw [natMax?_eq_some_iff] at h
    exact (natMax?_eq_some_iff.2
      ⟨hp.mem_iff.1 h.1, fun b hb => h.2 b (hp.mem_iff.2 hb)⟩).symm

theorem mem_prepare {dfs : List (List Row)} {s : StateRow}
    (hs : s ∈ prepare_for_database dfs) :
    ∃ r0 ∈ dedupLast (sortByCrawled dfs.flatten), s =
      { id := r0.id, firstSeen := firstSeenOf (sortByCrawled dfs.flatten) r0.id
      , attrs := r0.attrs, active := activeFlag (sortByCrawled dfs.flatten) r0.id } := by
  rw [prepare_for_database] at hs
  by_cases he : dfs.isEmpty
  · rw [if_pos he] at hs
    cases hs
  · rw [if_neg he] at hs
    simp only [List.mem_map] at hs
    obtain ⟨r0, h0, heq⟩ := hs
    exact ⟨r0, h0, heq.symm⟩

theorem prepare_first_seen_min {dfs : List (List Row)} {s : StateRow}
    (hs : s ∈ prepare_for_database dfs) (hid : s.id ≠ Json.null) :
    s.firstSeen = ((dfs.flatten.filter (fun r => r.id = s.id)).map Row.crawledAt).min? := by
  obtain ⟨r0, _, rfl⟩ := mem_prepare hs
  simp only [] at hid ⊢
  rw [firstSeenOf, if_neg hid]
  exact min?_perm
    ((((List.perm_insertionSort rowLe dfs.flatten)).filter _).map _)

/-- C3 (amended): `prepare_for_database` writes, for every non-null id, the
minimum `crawled_at` over all supplied rows bearing that id — a value
independent of supply order — as the state row's first-seen timestamp.  (The
single-pass pipeline instead keeps the capture time of the first supplied
snapshot containing the id, which differs when snapshots arrive out of
chronological order: see the counterexample.) -/
theorem C3_prepare_first_seen_min (dfs : List (List Row)) (s : StateRow)
    (hs : s ∈ prepare_for_database dfs) (hid : s.id ≠ Json.null) :
    s.firstSeen = ((dfs.flatten.filter (fun r => r.id = s.id)).map Row.crawledAt).min? :=
  prepare_first_seen_min hs hid

theorem C3_prepare_first_seen_min_witness :
    ({ id := Json.num 4, firstSeen := some 40, attrs := [], active := true } : StateRow).firstSeen =
      ((([[{ id := Json.num 4, crawledAt := 50, attrs := [] }],
          [{ id := Json.num 4, crawledAt := 40, attrs := [] }]] :
            List (List Row)).flatten.filter
          (fun r => r.id = ({ id := Json.num 4, firstSeen := some 40, attrs := []
                            , active := true } : StateRow).id)).map Row.crawledAt).min? :=
  C3_prepare_first_seen_min
    [[{ id := Json.num 4, crawledAt := 50, attrs := [] }],
     [{ id := Json.num 4, crawledAt := 40, attrs := [] }]]
    { id := Json.num 4, firstSeen := some 40, attrs := [], active := true }
    (by decide) (by decide)

theorem mem_datesOf {rows : List Row} {d : Nat} :
    d ∈ datesOf rows ↔ ∃ r ∈ rows, dateOf r.crawledAt = d := by
  simp [datesOf, mem_dedupKeepFirst, List.mem_map]

theorem nodup_datesOf (rows : List Row) : (datesOf rows).Nodup :=
  ((List.perm_insertionSort _ _).nodup_iff).2 (nodup_dedupKeepFirst _)

theorem sorted_datesOf (rows : List Row) :
    (datesOf rows).Sorted (fun a b : Nat => a ≤ b) := by
  haveI : IsTotal Nat (fun a b : Nat => a ≤ b) := ⟨Nat.le_total⟩
  haveI : IsTrans Nat (fun a b : Nat => a ≤ b) := ⟨fun _ _ _ => Nat.le_trans⟩
  exact List.sorted_insertionSort _ _

theorem getLastD_irrel {l : List Nat} (hne : l ≠ []) (d1 d2 : Nat) :
    l.getLastD d1 = l.getLastD d2 := by
  cases l with
  | nil => exact absurd rfl hne
  | cons a t => rfl

theorem sorted_le_getLastD {l : List Nat}
    (hs : l.Sorted (fun a b : Nat => a ≤ b)) :
    ∀ x ∈ l, x ≤ l.getLastD 0 := by
  induction l with
  | nil => intro x hx; cases hx
  | cons a t ih =>
    intro x hx
    cases t with
    | nil =>
      rcases List.mem_singleton.1 hx with rfl
      exact Nat.le_refl x
    | cons b t2 =>
      have hlast : (a :: b :: t2).getLastD 0 = (b :: t2).getLastD 0 := by
        rw [List.getLastD_cons]
        exact getLastD_irrel (by simp) a 0
      rw [hlast]
      rcases List.mem_cons.1 hx with rfl | hx2
      · have hxb : x ≤ b := List.rel_of_sorted_cons hs b (List.mem_cons_self _ _)
        have hbl : b ≤ (b :: t2).getLastD 0 :=
          ih hs.of_cons b (List.mem_cons_self _ _)
        exact Nat.le_trans hxb hbl
      · exact ih hs.of_cons x hx2

theorem mem_idsOnDate {rows : List Row} {pid : Json} {d : Nat} :
    pid ∈ idsOnDate rows d ↔ pid ≠ Json.null ∧ presentOn rows pid d := by
  rw [idsOnDate, mem_dedupKeepFirst]
  simp only [List.mem_filter, List.mem_map, decide_eq_true_eq, presentOn]
  constructor
  · rintro ⟨⟨r, ⟨hr, hd⟩, rfl⟩, hne⟩
    exact ⟨hne, r, hr, rfl, hd⟩
  · rintro ⟨hne, r, hr, rfl, hd⟩
    exact ⟨⟨r, ⟨hr, hd⟩, rfl⟩, hne⟩

theorem nodup_two_le {α : Type} {l : List α} {a b : α}
    (ha : a ∈ l) (hb : b ∈ l) (hab : a ≠ b) : 2 ≤ l.length := by
  match l with
  | [] => cases ha
  | [x] =>
    rcases List.mem_singleton.1 ha with rfl
    rcases List.mem_singleton.1 hb with rfl
    exact absurd rfl hab
  | x :: y :: t => simp only [List.length_cons]; omega

theorem presentOn_perm {l1 l2 : List Row} {pid : Json} {d : Nat}
    (hp : List.Perm l1 l2) : presentOn l1 pid d ↔ presentOn l2 pid d := by
  rw [presentOn, presentOn]
  constructor
  · rintro ⟨r, hr, h⟩
    exact ⟨r, hp.mem_iff.1 hr, h⟩
  · rintro ⟨r, hr, h⟩
    exact ⟨r, hp.mem_iff.2 hr, h⟩

theorem daysPresent_two {rows : List Row} {pid : Json} {d1 d2 : Nat}
    (hab : d1 ≠ d2) (hpid : pid ≠ Json.null)
    (h1 : presentOn rows pid d1) (h2 : presentOn rows pid d2) :
    2 ≤ daysPresent rows pid := by
  rw [daysPresent]
  have hm : ∀ d, presentOn rows pid d →
      d ∈ (datesOf rows).filter (fun d => (idsOnDate rows d).any (fun x => x = pid)) := by
    intro d hd
    rw [List.mem_filter]
    obtain ⟨r, hr, hrid, hrd⟩ := hd
    refine ⟨mem_datesOf.2 ⟨r, hr, hrd⟩, ?_⟩
    simp only [List.any_eq_true, decide_eq_true_eq]
    exact ⟨pid, mem_idsOnDate.2 ⟨hpid, ⟨r, hr, hrid, hrd⟩⟩, rfl⟩
  exact nodup_two_le (hm d1 h1) (hm d2 h2) hab

theorem daysPresent_witnesses {rows : List Row} {pid : Json}
    (h : 2 ≤ daysPresent rows pid) :
    ∃ d1 d2, d1 ≠ d2 ∧ pid ∈ idsOnDate rows d1 ∧ pid ∈ idsOnDate rows d2 := by
  rw [daysPresent] at h
  have hnd : ((datesOf rows).filter
      (fun d => (idsOnDate rows d).any (fun x => x = pid))).Nodup :=
    (nodup_datesOf rows).filter _
  cases hl : (datesOf rows).filter (fun d => (idsOnDate rows d).any (fun x => x = pid)) with
  | nil => rw [hl] at h; simp at h
  | cons d1 rest =>
    cases rest with
    | nil => rw [hl] at h; simp at h
    | cons d2 t =>
      rw [hl] at hnd
      have hne : d1 ≠ d2 := by
        intro hcon
        have := (List.nodup_cons.1 hnd).1
        rw [hcon] at this
        exact this (List.mem_cons_self _ _)
      have hmem : ∀ d ∈ d1 :: d2 :: t, pid ∈ idsOnDate rows d := by
        intro d hd
        have : d ∈ (datesOf rows).filter
            (fun d => (idsOnDate rows d).any (fun x => x = pid)) := hl ▸ hd
        have := (List.mem_filter.1 this).2
        simp only [List.any_eq_true, decide_eq_true_eq] at this
        obtain ⟨x, hx, rfl⟩ := this
        exact hx
      exact ⟨d1, d2, hne, hmem d1 (List.mem_cons_self _ _),
        hmem d2 (List.mem_cons_of_mem _ (List.mem_cons_self _ _))⟩

theorem activeFlag_few_dates {rows : List Row} {pid : Json}
    (h : (datesOf rows).length < 2) : activeFlag rows pid = true := by
  rw [activeFlag]
  simp only [if_pos h]

theorem activeFlag_many_dates {rows : List Row} {pid : Json}
    (h : 2 ≤ (datesOf rows).length) :
    activeFlag rows pid = true ↔
      (daysPresent rows pid < 2 ∨ pid ∈ idsOnDate rows ((datesOf rows).getLastD 0)) := by
  rw [activeFlag]
  rw [if_neg (by omega)]
  by_cases hc : 2 ≤ daysPresent rows pid ∧
      (idsOnDate rows ((datesOf rows).getLastD 0)).any (fun x => x = pid) = false
  · rw [if_pos hc]
    constructor
    · intro habs
      cases habs
    · intro hdisj
      rcases hdisj with hlt | hmem
      · omega
      · have hall := List.any_eq_false.1 hc.2
        have := hall pid hmem
        simp at this
  · rw [if_neg hc]
    simp only [true_iff]
    by_cases hdp : 2 ≤ daysPresent rows pid
    · right
      have hany : ¬ (idsOnDate rows ((datesOf rows).getLastD 0)).any
          (fun x => x = pid) = false := fun hf => hc ⟨hdp, hf⟩
      rcases hany2 : (idsOnDate rows ((datesOf rows).getLastD 0)).any
          (fun x => x = pid) with _ | _
      · exact absurd hany2 hany
      · have := List.any_eq_true.1 hany2
        obtain ⟨x, hx, hxe⟩ := this
        simp only [decide_eq_true_eq] at hxe
        exact hxe ▸ hx
    · left
      omega

theorem datesOf_ne_nil {rows : List Row} (hne : rows ≠ []) : datesOf rows ≠ [] := by
  intro hcon
  cases rows with
  | nil => exact hne rfl
  | cons r t =>
    have : dateOf r.crawledAt ∈ datesOf (r :: t) :=
      mem_datesOf.2 ⟨r, List.mem_cons_self _ _, rfl⟩
    rw [hcon] at this
    cases this

theorem datesOf_getLastD_max {rows : List Row} (hne : rows ≠ []) :
    (rows.map (fun r => dateOf r.crawledAt)).max? = some ((datesOf rows).getLastD 0) := by
  apply natMax?_eq_some_iff.2
  constructor
  · have hdne := datesOf_ne_nil hne
    have hmem : (datesOf rows).getLastD 0 ∈ datesOf rows := by
      rw [List.getLastD_eq_getLast?]
      cases hgl : (datesOf rows).getLast? with
      | none => exact absurd (List.getLast?_eq_none_iff.1 hgl) hdne
      | some x =>
        exact List.mem_of_mem_getLast? (by rw [hgl]; exact rfl)
    obtain ⟨r, hr, hd⟩ := mem_datesOf.1 hmem
    exact List.mem_map.2 ⟨r, hr, hd⟩
  · intro b hb
    obtain ⟨r, hr, hd⟩ := List.mem_map.1 hb
    exact sorted_le_getLastD (sorted_datesOf rows) b (mem_datesOf.2 ⟨r, hr, hd⟩)

theorem nodup_all_eq_len_lt {α : Type} {l : List α} (hnd : l.Nodup)
    (hall : ∀ a ∈ l, ∀ b ∈ l, a = b) : l.length < 2 := by
  match l with
  | [] => simp
  | [x] => simp
  | x :: y :: t =>
    have hxy : x = y := hall x (List.mem_cons_self _ _) y
      (List.mem_cons_of_mem _ (List.mem_cons_self _ _))
    have hnx := (List.nodup_cons.1 hnd).1
    rw [hxy] at hnx
    exact absurd (List.mem_cons_self _ _) hnx

/-- C1: in the state table of `prepare_for_database`, an id observed on two
or more distinct calendar dates is active iff it is present on the most
recent calendar date (the maximum over all observation dates); an id observed
on at most one calendar date is always active; and when all observations fall
on a single calendar date every id is active. -/
theorem C1_active_flag (dfs : List (List Row)) (s : StateRow)
    (hs : s ∈ prepare_for_database dfs) (hid : s.id ≠ Json.null) :
    ((∃ d1 d2, d1 ≠ d2 ∧ presentOn dfs.flatten s.id d1 ∧ presentOn dfs.flatten s.id d2) →
      ∀ D, (dfs.flatten.map (fun r => dateOf r.crawledAt)).max? = some D →
        (s.active = true ↔ presentOn dfs.flatten s.id D)) ∧
    ((∀ d1 d2, presentOn dfs.flatten s.id d1 → presentOn dfs.flatten s.id d2 → d1 = d2) →
      s.active = true) ∧
    ((∀ r1 ∈ dfs.flatten, ∀ r2 ∈ dfs.flatten,
        dateOf r1.crawledAt = dateOf r2.crawledAt) → s.active = true) := by
  obtain ⟨r0, hr0, rfl⟩ := mem_prepare hs
  simp only [] at hid ⊢
  have hperm : List.Perm (sortByCrawled dfs.flatten) dfs.flatten := by
    rw [sortByCrawled]
    exact List.perm_insertionSort rowLe dfs.flatten
  refine ⟨?_, ?_, ?_⟩
  · rintro ⟨d1, d2, hne, h1, h2⟩ D hD
    have h1s : presentOn (sortByCrawled dfs.flatten) r0.id d1 := (presentOn_perm hperm).2 h1
    have h2s : presentOn (sortByCrawled dfs.flatten) r0.id d2 := (presentOn_perm hperm).2 h2
    have hdp : 2 ≤ daysPresent (sortByCrawled dfs.flatten) r0.id :=
      daysPresent_two hne hid h1s h2s
    have hlen : 2 ≤ (datesOf (sortByCrawled dfs.flatten)).length := by
      obtain ⟨ra, hra, _, hda⟩ := h1s
      obtain ⟨rb, hrb, _, hdb⟩ := h2s
      exact @nodup_two_le Nat (datesOf (sortByCrawled dfs.flatten)) d1 d2
        (mem_datesOf.2 ⟨ra, hra, hda⟩) (mem_datesOf.2 ⟨rb, hrb, hdb⟩) hne
    have hsne : sortByCrawled dfs.flatten ≠ [] := by
      intro hcon
      have := mem_dedupLast hr0
      rw [hcon] at this
      cases this
    have hDlast : D = (datesOf (sortByCrawled dfs.flatten)).getLastD 0 := by
      have hmax := datesOf_getLastD_max hsne
      have heqm : ((sortByCrawled dfs.flatten).map (fun r => dateOf r.crawledAt)).max? =
          (dfs.flatten.map (fun r => dateOf r.crawledAt)).max? :=
        max?_perm (hperm.map _)
      rw [hmax, hD] at heqm
      exact (Option.some.inj heqm).symm
    rw [activeFlag_many_dates hlen]
    constructor
    · intro hdisj
      rcases hdisj with hlt | hmem
      · omega
      · have := (mem_idsOnDate.1 hmem).2
        rw [← hDlast] at this
        exact (presentOn_perm hperm).1 this
    · intro hpres
      right
      exact mem_idsOnDate.2 ⟨hid, hDlast ▸ (presentOn_perm hperm).2 hpres⟩
  · intro huniq
    by_cases hlen : (datesOf (sortByCrawled dfs.flatten)).length < 2
    · exact activeFlag_few_dates hlen
    · rw [activeFlag_many_dates (by omega)]
      left
      by_contra hdp
      obtain ⟨d1, d2, hne, hm1, hm2⟩ :=
        @daysPresent_witnesses (sortByCrawled dfs.flatten) r0.id (by omega)
      have hp1 := (presentOn_perm hperm).1 (mem_idsOnDate.1 hm1).2
      have hp2 := (presentOn_perm hperm).1 (mem_idsOnDate.1 hm2).2
      exact hne (huniq d1 d2 hp1 hp2)
  · intro hsame
    apply activeFlag_few_dates
    apply nodup_all_eq_len_lt (nodup_datesOf _)
    intro a ha b hb
    obtain ⟨ra, hra, hda⟩ := mem_datesOf.1 ha
    obtain ⟨rb, hrb, hdb⟩ := mem_datesOf.1 hb
    rw [← hda, ← hdb]
    exact hsame ra (hperm.mem_iff.1 hra) rb (hperm.mem_iff.1 hrb)

theorem C1_active_flag_witness :
    (({ id := Json.num 1, firstSeen := some 0, attrs := [], active := true } : StateRow).active =
      true) ↔
    presentOn ([[{ id := Json.num 1, crawledAt := 0, attrs := [] },
                 { id := Json.num 2, crawledAt := 10, attrs := [] }],
                [{ id := Json.num 2, crawledAt := 86400, attrs := [] },
                 { id := Json.num 3, crawledAt := 86410, attrs := [] }],
                [{ id := Json.num 1, crawledAt := 172800, attrs := [] }]] :
        List (List Row)).flatten
      ({ id := Json.num 1, firstSeen := some 0, attrs := [], active := true } : StateRow).id 2 :=
  (C1_active_flag
    [[{ id := Json.num 1, crawledAt := 0, attrs := [] },
      { id := Json.num 2, crawledAt := 10, attrs := [] }],
     [{ id := Json.num 2, crawledAt := 86400, attrs := [] },
      { id := Json.num 3, crawledAt := 86410, attrs := [] }],
     [{ id := Json.num 1, crawledAt := 172800, attrs := [] }]]
    { id := Json.num 1, firstSeen := some 0, attrs := [], active := true }
    (by decide) (by decide)).1 ⟨0, 2, by decide, by decide, by decide⟩ 2 (by decide)

theorem C3_single_pass_order_counterexample :
    ((process_datafiles
      [some [{ id := Json.num 3, crawledAt := 500, attrs := [] }],
       some [{ id := Json.num 3, crawledAt := 300, attrs := [] }]]).1.map
        Row.crawledAt = [500]) ∧
    ((([some [{ id := Json.num 3, crawledAt := 500, attrs := [] }],
        some [{ id := Json.num 3, crawledAt := 300, attrs := [] }]] :
          List (Option (List Row))).filterMap id).flatten.map Row.crawledAt).min? =
      some 300 := by
  exact ⟨by decide, by decide⟩

/-- C10 (amended): the two pipelines are not equivalent in general — their
change outputs differ (see the counterexample) — but a restricted agreement
holds for discovery times: when at least two snapshots are supplied in
chronological order with one capture time per snapshot, every non-null id's
final single-pass state row carries the minimum `crawled_at` over all rows
bearing that id, and `prepare_for_database`'s state row for the same id
records the same first-seen value. -/
theorem C10_first_seen_agreement (dfs : List (List Row))
    (h2 : 2 ≤ dfs.length) (hc : snapsChronoB dfs = true) (rP : Row)
    (hrP : rP ∈ (process_datafiles (dfs.map some)).1) (hid : rP.id ≠ Json.null) :
    ((dfs.flatten.filter (fun r => r.id = rP.id)).map Row.crawledAt).min? =
      some rP.crawledAt ∧
    (∀ rQ ∈ prepare_for_database dfs, rQ.id = rP.id →
      rQ.firstSeen = some rP.crawledAt) := by
  match dfs, h2 with
  | a :: b :: t, _ =>
  have hrP2 : rP ∈ (List.foldl stepFile { prev := [], firstSeen := [], changes := [] }
      (some a :: some b :: t.map some)).prev.map (fun kv =>
        { kv.2 with crawledAt := (alookup (List.foldl stepFile
            { prev := [], firstSeen := [], changes := [] }
            (some a :: some b :: t.map some)).firstSeen kv.1).getD kv.2.crawledAt }) := hrP
  rw [List.mem_map] at hrP2
  obtain ⟨kv, hkv, heq⟩ := hrP2
  have hinv := foldl_stepFile_null_free (some a :: some b :: t.map some)
    { prev := [], firstSeen := [], changes := [] }
    (fun kv hkv => absurd hkv (List.not_mem_nil kv))
    (fun c hc => absurd hc (List.not_mem_nil c))
  have hkvinv := hinv.1 kv hkv
  have hsome := foldl_stepFile_prev_firstSeen (some a :: some b :: t.map some)
    { prev := [], firstSeen := [], changes := [] }
    (fun kv hkv => absurd hkv (List.not_mem_nil kv)) kv hkv
  have hlook : alookup (List.foldl stepFile { prev := [], firstSeen := [], changes := [] }
      (some a :: some b :: t.map some)).firstSeen kv.1 =
      firstSeenSpec (some a :: some b :: t.map some) kv.1 := by
    rw [foldl_stepFile_firstSeen _ _ _ hkvinv.2]
    rfl
  rw [hlook] at hsome
  obtain ⟨tv, htv⟩ := Option.isSome_iff_exists.1 hsome
  have hcraw : rP.crawledAt = tv := by
    rw [← heq]
    show (alookup (List.foldl stepFile { prev := [], firstSeen := [], changes := [] }
      (some a :: some b :: t.map some)).firstSeen kv.1).getD kv.2.crawledAt = tv
    rw [hlook, htv]
    rfl
  have hpid : rP.id = kv.1 := by
    rw [← heq]
    show kv.2.id = kv.1
    exact hkvinv.1
  have hspec2 : firstSeenSpec ((a :: b :: t).map some) rP.id = some rP.crawledAt := by
    rw [List.map_cons, List.map_cons, hpid, hcraw]
    exact htv
  have hmin := chrono_min (a :: b :: t) hc rP.id rP.crawledAt hspec2
  refine ⟨hmin, fun rQ hrQ hq => ?_⟩
  rw [prepare_first_seen_min hrQ (hq ▸ hid), hq]
  exact hmin

theorem C10_first_seen_agreement_witness :
    ((([[{ id := Json.num 6, crawledAt := 100, attrs := [("price", Json.num 1)] }],
        [{ id := Json.num 6, crawledAt := 200, attrs := [("price", Json.num 2)] }]] :
          List (List Row)).flatten.filter
        (fun r => r.id = ({ id := Json.num 6, crawledAt := 100
                          , attrs := [("price", Json.num 2)] } : Row).id)).map
        Row.crawledAt).min? =
      some ({ id := Json.num 6, crawledAt := 100
            , attrs := [("price", Json.num 2)] } : Row).crawledAt ∧
    (∀ rQ ∈ prepare_for_database
        [[{ id := Json.num 6, crawledAt := 100, attrs := [("price", Json.num 1)] }],
         [{ id := Json.num 6, crawledAt := 200, attrs := [("price", Json.num 2)] }]],
      rQ.id = ({ id := Json.num 6, crawledAt := 100
               , attrs := [("price", Json.num 2)] } : Row).id →
      rQ.firstSeen = some ({ id := Json.num 6, crawledAt := 100
                           , attrs := [("price", Json.num 2)] } : Row).crawledAt) :=
  C10_first_seen_agreement
    [[{ id := Json.num 6, crawledAt := 100, attrs := [("price", Json.num 1)] }],
     [{ id := Json.num 6, crawledAt := 200, attrs := [("price", Json.num 2)] }]]
    (by decide) (by decide)
    { id := Json.num 6, crawledAt := 100, attrs := [("price", Json.num 2)] }
    (by decide) (by decide)
